import Mathlib

/-!
Verification of the WorldVoice speech-instruction compiler
(`addon/synthDrivers/WorldVoice/__init__.py`).

The development shallowly embeds the `SynthDriver.speak` pipeline:
the comma stripper, the numeric tagger (`resplit` /
`coercionNumberLangChange`), the script spacer
(`patchedSpaceSpeechSequence`), the normalization pass, the stabilizer
reordering pass, and the three-engine multiplexer loop, together with the
markup tag-diff emitter (`outputTags`).

External collaborators that are not part of the source tree (the voice
manager, the language detector, `unicodedata.normalize`, the speech-symbol
dictionary) are modelled as parameters, following the interface the spec
gives for them.
-/

namespace WorldVoice

/-- Speech instructions.  This mirrors the NVDA speech command classes used
by `speak`: plain strings, `IndexCommand`, `CharacterModeCommand`,
`LangChangeCommand` / `WVLangChangeCommand` (distinguished by the `wv`
flag; `WVLangChangeCommand` is the addon's own subclass from
`_speechcommand.py`), `BreakCommand`, `PitchCommand`, `RateCommand`,
`VolumeCommand`, `PhonemeCommand` (the command's `text` attribute is the
fallback string, empty standing for the falsy values), `SplitCommand`,
some other `SpeechCommand` subclass, and a non-command object. -/
inductive Cmd where
  | text (s : String)
  | index (i : Int)
  | characterMode (state : Bool)
  | langChange (wv : Bool) (lang : Option String)
  | breakCmd (time : Int)
  | pitch (newValue : Int) (multiplier : ℚ)
  | rate (newValue : Int) (multiplier : ℚ)
  | volume (newValue : Int) (multiplier : ℚ)
  | phoneme (ipa : String) (fallback : String)
  | split
  | otherCommand
  | unknownObject
  deriving DecidableEq, Repr

/-- Modelled from the spec: a voice handle issued by the voice router
(`voiceManager.py` is not in the source tree).  It is bound to an engine
tag, a locale and prosody state (0..100); the `vid` field models object
identity, since two handles are "the same voice" iff reference-equal.
The `pitch`/`rate`/`volume` fields stand for both the public properties
and the `_pitch`/`_rate`/`_volume` attributes read by `speak`. -/
structure Voice where
  vid : Nat
  engine : String
  language : String
  pitch : Int
  rate : Int
  volume : Int
  deriving DecidableEq, Repr

/-- Modelled from the spec: the voice-routing collaborator
(`VoiceManager`), reduced to the interface `speak` consumes: the default
voice instance, the default/driver language (`self.language`),
per-language voice resolution (`getVoiceInstanceForLanguage`) and the
phonetic-alphabet conversion (`_convertPhoneme`, `none` modelling
`LookupError`). -/
structure VM where
  defaultVoiceInstance : Voice
  defaultLanguage : String
  resolve : String → Option Voice
  convertPhoneme : String → Option String

/-- One element of a backend payload.  The source appends plain strings to
`chunks` / `textList`; the constructor records whether the append site
contributed spoken text or a control/markup token, so that "text content
delivered" is definable.  The carried string is exactly what the source
appends. -/
inductive Item where
  | text (s : String)
  | ctrl (s : String)
  deriving DecidableEq, Repr

/-- A backend call made by the compiler: `speakCall v items` models
`voiceInstance.speak(...)` with the buffered items (the source joins them
with `speech.CHUNK_SEPARATOR` before the call), `breaks` models
`voiceInstance.breaks(time)` and `indexCall` models
`voiceInstance.index(i)`. -/
inductive Emit where
  | speakCall (v : Voice) (items : List Item)
  | breaks (v : Voice) (time : Int)
  | indexCall (v : Voice) (i : Int)
  deriving DecidableEq, Repr

/-- The mutable locals of one `speak` invocation: the active voice and
language, the VE chunk buffer with its `hasText`/`charMode` flags, the
SAPI5 `textList` buffer with the tag set, its dirty flag and open-tag
list, and the loop variable `item` (unbound at the start of the call,
bound by the SAPI5 and aisound branches). -/
structure St where
  voiceInstance : Voice
  currentLanguage : String
  chunks : List Item
  hasText : Bool
  charMode : Bool
  textList : List Item
  tags : List (String × List (String × String))
  tagsChanged : Bool
  openedTags : List String
  item : Option Cmd
  deriving DecidableEq, Repr

/-- Uncaught Python exceptions the loop can raise. -/
inductive Err where
  | nameError
  deriving DecidableEq, Repr

instance instDecEqExcept {e a : Type} [DecidableEq e] [DecidableEq a] :
    DecidableEq (Except e a) := fun x y =>
  match x, y with
  | .ok v, .ok w =>
      if h : v = w then isTrue (by rw [h]) else isFalse (by simp [h])
  | .error v, .error w =>
      if h : v = w then isTrue (by rw [h]) else isFalse (by simp [h])
  | .ok _, .error _ => isFalse (by intro h; exact Except.noConfusion h)
  | .error _, .ok _ => isFalse (by intro h; exact Except.noConfusion h)

/-- Python dict assignment on an insertion-ordered association list:
updating an existing key keeps its position, a new key is appended. -/
def dictSet {α : Type} (d : List (String × α)) (k : String) (v : α) :
    List (String × α) :=
  match d with
  | [] => [(k, v)]
  | (k', v') :: rest =>
      if k' = k then (k, v) :: rest else (k', v') :: dictSet rest k v

/-- Python `del d[k]` (ignoring the key-missing error, which the source
catches). -/
def dictDel {α : Type} (d : List (String × α)) (k : String) :
    List (String × α) :=
  match d with
  | [] => []
  | (k', v') :: rest =>
      if k' = k then rest else (k', v') :: dictDel rest k

/-- Python `int()` truncation toward zero on a rational. -/
def pyInt (q : ℚ) : Int :=
  if 0 ≤ q then ⌊q⌋ else ⌈q⌉

/-- Python truthiness of a string. -/
def pyTruthy (s : String) : Bool :=
  s ≠ ""

/-- `m - 1/2 ≤ 100 * 2 ^ (k / f)`, decided by integer arithmetic: raising
both sides to the `f`-th power and clearing denominators. -/
def halfLe (k : Int) (f : Nat) (m : Nat) : Bool :=
  if 0 ≤ k then
    decide ((2 * m - 1) ^ f ≤ 200 ^ f * 2 ^ k.toNat)
  else
    decide ((2 * m - 1) ^ f * 2 ^ (-k).toNat ≤ 200 ^ f)

/-- `round (100 * 2 ^ (k / f))`, computed exactly.  This is the integer
the source's `int(round(2.0 ** ((boundedValue - 50.0) / factor) * 100))`
produces for the bounded values `speak` feeds it (`k = boundedValue - 50 ∈
[-50, 50]`, `f ∈ {25, 50}`; the exact value is never within float error of
a rounding boundary there, and the only representable boundary cases are
integers, so Python's half-even rounding never fires on a tie). -/
def round2exp (k : Int) (f : Nat) : Int :=
  (Nat.findGreatest (fun m => halfLe k f m = true) 500 : Int)

/-- The tag-diff emitter (`outputTags`): with the dirty flag set, emit
closing elements for the open tags in reverse order, then opening elements
for the current tag set, record them as open and clear the flag; then, for
a markup-engine voice, unconditionally re-stage the pitch tag from the
voice's baseline.  `v` is the `voiceInstance` the closure reads at call
time. -/
def outputTags (v : Voice) (st : St) : St :=
  if st.tagsChanged = false then st
  else
    let closing := st.openedTags.reverse.map fun t => Item.ctrl ("</" ++ t ++ ">")
    let opening := st.tags.flatMap fun p =>
      [Item.ctrl ("<" ++ p.1)] ++
        (p.2.map fun a => Item.ctrl (" " ++ a.1 ++ "=\"" ++ a.2 ++ "\"")) ++
        [Item.ctrl ">"]
    let st' := { st with
      textList := st.textList ++ closing ++ opening
      openedTags := st.tags.map Prod.fst
      tagsChanged := false }
    if v.engine = "SAPI5" then
      { st' with tags := dictSet st'.tags "pitch" [("absmiddle", toString v.pitch)] }
    else st'

/-- Resolution of a language change: `getVoiceInstanceForLanguage`
followed by the default-voice fallback for an unresolvable locale
(`defaultInstance` in `speak` is the manager's default voice instance). -/
def resolveFor (vm : VM) (lang : String) : Voice :=
  (vm.resolve lang).getD vm.defaultVoiceInstance

/-- Drop `pat` from the front of `cs` when it is a prefix. -/
def dropPrefixChars (pat cs : List Char) : Option (List Char) :=
  match pat, cs with
  | [], cs => some cs
  | _ :: _, [] => none
  | p :: ps, c :: cs => if c = p then dropPrefixChars ps cs else none

/-- Python `str.replace` on character lists: replace non-overlapping
occurrences left to right (`fuel` dominates the length). -/
def pyReplaceGo (fuel : Nat) (pat repl : List Char) (cs : List Char) :
    List Char :=
  match fuel with
  | 0 => cs
  | fuel + 1 =>
      match cs with
      | [] => []
      | c :: r =>
          match dropPrefixChars pat (c :: r) with
          | some rest => repl ++ pyReplaceGo fuel pat repl rest
          | none => c :: pyReplaceGo fuel pat repl r

/-- Python `s.replace(pat, repl)` (for a nonempty `pat`, the only use). -/
def pyReplace (s pat repl : String) : String :=
  if pat = "" then s
  else String.mk (pyReplaceGo s.toList.length pat.toList repl.toList s.toList)

/-- Python `str.split(sep)` on character lists: split at each
non-overlapping occurrence left to right, keeping empty pieces. -/
def pySplitGo (fuel : Nat) (sep : List Char) (acc : List Char)
    (cs : List Char) : List String :=
  match fuel with
  | 0 => [String.mk (acc.reverse ++ cs)]
  | fuel + 1 =>
      match cs with
      | [] => [String.mk acc.reverse]
      | c :: r =>
          match dropPrefixChars sep (c :: r) with
          | some rest => String.mk acc.reverse :: pySplitGo fuel sep [] rest
          | none => pySplitGo fuel sep (c :: acc) r

/-- Python `s.split(sep)` (for a nonempty `sep`, the only use). -/
def pySplit (s sep : String) : List String :=
  if sep = "" then [s]
  else pySplitGo s.toList.length sep.toList [] s.toList

/-- Python whitespace (the ASCII part; the claims only exercise ASCII). -/
def pySpace (c : Char) : Bool :=
  c = ' ' || c = '\t' || c = '\n' || c = '\r' || c = '\x0b' || c = '\x0c'

/-- Python `str.strip()`. -/
def pyStrip (s : String) : String :=
  String.mk (((s.toList.dropWhile pySpace).reverse.dropWhile pySpace).reverse)

/-- Python `str.lower()` (ASCII case mapping; the claims only exercise
ASCII). -/
def pyLower (s : String) : String :=
  String.mk (s.toList.map Char.toLower)

/-- Python `' '.join(item)`: the characters of `item` separated by
spaces. -/
def pySpaceJoin (s : String) : String :=
  String.intercalate " " (s.toList.map Char.toString)

/-- The chunk-protocol (VE) arm of the `speak` loop, one instruction.
Commands that fall through every `isinstance` test reach
`elif isinstance(item, SpeechCommand)`, which reads the loop variable
`item` that this arm never assigns — a `NameError` if no earlier SAPI5 /
aisound arm bound it. -/
def veStep (vm : VM) (st : St) (c : Cmd) : Except Err (List Emit × St) :=
  match c with
  | .text s =>
      let s := pyStrip s
      if s = "" then .ok ([], st)
      else
        let s := if st.charMode || s.length = 1 then pyLower s else s
        .ok ([], { st with chunks := st.chunks ++ [Item.text (pyReplace s "\x1b" "")],
                           hasText := true })
  | .index i =>
      .ok ([], { st with
        chunks := st.chunks ++ [Item.ctrl ("\x1b\\mrk=" ++ toString i ++ "\\")] })
  | .breakCmd t =>
      .ok ([Emit.speakCall st.voiceInstance st.chunks, Emit.breaks st.voiceInstance t],
        { st with chunks := [], hasText := false })
  | .rate nv _ =>
      let b := max 0 (min nv 100)
      let f : Nat := if 50 ≤ b then 25 else 50
      let value := round2exp (b - 50) f
      .ok ([], { st with
        chunks := st.chunks ++ [Item.ctrl ("\x1b\\rate=" ++ toString value ++ "\\")] })
  | .pitch nv _ =>
      let b := max 0 (min nv 100)
      let value := round2exp (b - 50) 50
      .ok ([], { st with
        chunks := st.chunks ++ [Item.ctrl ("\x1b\\pitch=" ++ toString value ++ "\\")] })
  | .volume nv _ =>
      let value := max 0 (min nv 100)
      .ok ([], { st with
        chunks := st.chunks ++ [Item.ctrl ("\x1b\\vol=" ++ toString value ++ "\\")] })
  | .characterMode b =>
      let s := if b then "\x1b\\tn=spell\\" else "\x1b\\tn=normal\\"
      .ok ([], { st with charMode := b, chunks := st.chunks ++ [Item.ctrl s] })
  | .split =>
      .ok ([Emit.speakCall st.voiceInstance st.chunks],
        { st with chunks := [], hasText := false })
  | .langChange _ l =>
      if l = some st.currentLanguage then .ok ([], st)
      else
        match l with
        | none =>
            .ok ([], { st with voiceInstance := vm.defaultVoiceInstance,
                               currentLanguage := vm.defaultLanguage })
        | some lang =>
            let newInstance := resolveFor vm lang
            if newInstance = st.voiceInstance then
              .ok ([], { st with currentLanguage := lang })
            else
              let es := if st.hasText then [Emit.speakCall st.voiceInstance st.chunks]
                        else []
              let st' := { st with currentLanguage := lang, chunks := [],
                                   hasText := false, voiceInstance := newInstance }
              if newInstance.engine = "SAPI5" then
                .ok (es, { st' with tags := (dictSet st'.tags "pitch"
                  [("absmiddle", toString newInstance.pitch)]) })
              else .ok (es, st')
  | _ =>
      match st.item with
      | none => .error .nameError
      | some _ => .ok ([], st)

/-- The markup-protocol (SAPI5) arm of the `speak` loop, one instruction.
It first binds the loop variable `item = command`. -/
def sapiStep (vm : VM) (st0 : St) (c : Cmd) : Except Err (List Emit × St) :=
  let st := { st0 with item := some c }
  match c with
  | .text s =>
      let st := outputTags st.voiceInstance st
      .ok ([], { st with textList := st.textList ++ [Item.text (pyReplace s "<" "&lt;")] })
  | .index i =>
      .ok ([], { st with
        textList := st.textList ++ [Item.ctrl ("<Bookmark Mark=\"" ++ toString i ++ "\" />")] })
  | .characterMode b =>
      let tags := if b then dictSet st.tags "spell" [] else dictDel st.tags "spell"
      .ok ([], { st with tags := tags, tagsChanged := true })
  | .breakCmd t =>
      .ok ([], { st with
        textList := st.textList ++ [Item.ctrl ("<silence msec=\"" ++ toString t ++ "\" />")] })
  | .pitch _ mult =>
      let value := ⌊(st.voiceInstance.pitch : ℚ) * mult / 2⌋ - 25
      .ok ([], { st with tags := dictSet st.tags "pitch" [("absmiddle", toString value)],
                         tagsChanged := true })
  | .volume _ mult =>
      if mult = 1 then
        .ok ([], { st with tags := dictDel st.tags "volume", tagsChanged := true })
      else
        let value := pyInt ((st.voiceInstance.volume : ℚ) * mult)
        .ok ([], { st with tags := dictSet st.tags "volume" [("level", toString value)],
                           tagsChanged := true })
  | .rate _ mult =>
      if mult = 1 then
        .ok ([], { st with tags := dictDel st.tags "rate", tagsChanged := true })
      else
        let value := pyInt ((st.voiceInstance.rate : ℚ) * mult)
        .ok ([], { st with tags := dictSet st.tags "rate" [("absspeed", toString value)],
                           tagsChanged := true })
  | .phoneme ipa txt =>
      match vm.convertPhoneme ipa with
      | some sym =>
          .ok ([], { st with textList := st.textList ++
            [Item.ctrl ("<pron sym=\"" ++ sym ++ "\">" ++ txt ++ "</pron>")] })
      | none =>
          if pyTruthy txt then
            .ok ([], { st with textList := st.textList ++ [Item.text txt] })
          else .ok ([], st)
  | .langChange _ l =>
      if l = some st.currentLanguage then .ok ([], st)
      else
        match l with
        | none =>
            .ok ([], { st with voiceInstance := vm.defaultVoiceInstance,
                               currentLanguage := vm.defaultLanguage })
        | some lang =>
            let newInstance := resolveFor vm lang
            if newInstance = st.voiceInstance then
              .ok ([], { st with currentLanguage := lang })
            else
              let st' := { st with currentLanguage := lang, tags := [],
                                   tagsChanged := true }
              let st' := outputTags st'.voiceInstance st'
              let es := [Emit.speakCall st'.voiceInstance st'.textList]
              let st' := { st' with textList := [], voiceInstance := newInstance }
              if newInstance.engine = "SAPI5" then
                .ok (es, { st' with tags := (dictSet st'.tags "pitch"
                  [("absmiddle", toString newInstance.pitch)]) })
              else .ok (es, st')
  | _ => .ok ([], st)

/-- The plain-call (aisound) arm of the `speak` loop, one instruction.
It first binds the loop variable `item = command`.  Note that the
language-change case speaks the (VE) `chunks` buffer to the old voice,
exactly as the source does. -/
def aiStep (vm : VM) (st0 : St) (c : Cmd) : Except Err (List Emit × St) :=
  let st := { st0 with item := some c }
  match c with
  | .text s =>
      let text := if st.charMode then pySpaceJoin s else s
      .ok ([Emit.speakCall st.voiceInstance [Item.text text]], st)
  | .index i => .ok ([Emit.indexCall st.voiceInstance i], st)
  | .characterMode b => .ok ([], { st with charMode := b })
  | .langChange _ l =>
      if l = some st.currentLanguage then .ok ([], st)
      else
        match l with
        | none =>
            .ok ([], { st with voiceInstance := vm.defaultVoiceInstance,
                               currentLanguage := vm.defaultLanguage })
        | some lang =>
            let newInstance := resolveFor vm lang
            if newInstance = st.voiceInstance then
              .ok ([], { st with currentLanguage := lang })
            else
              let es := [Emit.speakCall st.voiceInstance st.chunks]
              let st' := { st with currentLanguage := lang,
                                   voiceInstance := newInstance, charMode := false }
              if newInstance.engine = "SAPI5" then
                .ok (es, { st' with tags := (dictSet st'.tags "pitch"
                  [("absmiddle", toString newInstance.pitch)]) })
              else .ok (es, st')
  | _ => .ok ([], st)

/-- One iteration of the `speak` dispatch loop: the engine of the current
voice instance selects the arm; a voice whose engine is none of the three
matches no arm and the command is silently ignored. -/
def step (vm : VM) (st : St) (c : Cmd) : Except Err (List Emit × St) :=
  if st.voiceInstance.engine = "VE" then veStep vm st c
  else if st.voiceInstance.engine = "SAPI5" then sapiStep vm st c
  else if st.voiceInstance.engine = "aisound" then aiStep vm st c
  else .ok ([], st)

/-- The end-of-stream flush in `speak`. -/
def finalFlush (st : St) : List Emit :=
  if st.voiceInstance.engine = "VE" then
    if st.chunks ≠ [] then [Emit.speakCall st.voiceInstance st.chunks] else []
  else if st.voiceInstance.engine = "SAPI5" then
    let st' := { st with tags := [], tagsChanged := true }
    let st' := outputTags st'.voiceInstance st'
    [Emit.speakCall st'.voiceInstance st'.textList]
  else if st.voiceInstance.engine = "aisound" then
    [Emit.speakCall st.voiceInstance st.chunks]
  else []

/-- The `speak` multiplexer loop over a whole instruction sequence,
followed by the end-of-stream flush.  An uncaught exception aborts the
call, keeping the backend calls already made and skipping the final
flush. -/
def speakRun (vm : VM) (st : St) : List Cmd → List Emit × Option Err
  | [] => (finalFlush st, none)
  | c :: r =>
      match step vm st c with
      | .error e => ([], some e)
      | .ok (es, st') =>
          let rest := speakRun vm st' r
          (es ++ rest.1, rest.2)

/-- Classification used by the stabilizer: language changes (both
`LangChangeCommand` and `WVLangChangeCommand`) flush with priority, text
flushes, everything else is unstable. -/
def isLangCmd : Cmd → Bool
  | .langChange _ _ => true
  | _ => false

/-- Text-fragment test. -/
def isTextCmd : Cmd → Bool
  | .text _ => true
  | _ => false

/-- The stabilizer loop body: `stables`/`unstables` are the two buffers of
the source; a language-change command (either `isinstance` test) is
inserted at the front of `unstables` and everything flushes, a string
flushes `unstables` then itself, anything else accumulates; the trailing
`unstables` flush at end of stream. -/
def stabilizeGo (unstables : List Cmd) : List Cmd → List Cmd
  | [] => unstables
  | c :: r =>
      if isLangCmd c then (c :: unstables) ++ stabilizeGo [] r
      else if isTextCmd c then (unstables ++ [c]) ++ stabilizeGo [] r
      else stabilizeGo (unstables ++ [c]) r

/-- The stabilizer pass (`speak`, the `stables`/`unstables` loop). -/
def stabilize (seq : List Cmd) : List Cmd :=
  stabilizeGo [] seq

/-- `comma_number_pattern.sub('', s)`: drop each comma whose original
neighbours are both digits. -/
def stripCommasGo (prev : Option Char) : List Char → List Char
  | [] => []
  | c :: r =>
      if c = ',' && (prev.elim false Char.isDigit)
          && (r.head?.elim false Char.isDigit) then
        stripCommasGo (some c) r
      else
        c :: stripCommasGo (some c) r

/-- Python `comma_number_pattern.sub(lambda m: '', command)`. -/
def stripCommas (s : String) : String :=
  String.mk (stripCommasGo none s.toList)

/-- First character class of `number_pattern`: `[0-9\-\+]`. -/
def numClassA (c : Char) : Bool :=
  c.isDigit || c = '-' || c = '+'

/-- Second character class of `number_pattern`: `[0-9.:]`. -/
def numClassB (c : Char) : Bool :=
  c.isDigit || c = '.' || c = ':'

/-- Index (from the start) just after the last digit of a list, if any. -/
def lastDigitEnd (cs : List Char) : Option Nat :=
  match cs with
  | [] => none
  | c :: r =>
      match lastDigitEnd r with
      | some n => some (n + 1)
      | none => if c.isDigit then some 1 else none

/-- Length of the match of `number_pattern = [0-9\-\+]+[0-9.:]*[0-9]+|[0-9]`
at the head of `cs` (0 when there is none).  The first alternative matches
the longest prefix made of a nonempty `[0-9\-\+]` block, then a `[0-9.:]`
block, ending on a digit, of length at least two; otherwise a single digit
matches. -/
def numMatchLen (cs : List Char) : Nat :=
  let alt1 :=
    match cs with
    | [] => 0
    | c :: _ =>
        if numClassA c then
          let r1 := cs.takeWhile numClassA
          let rest := cs.drop r1.length
          let r2 := rest.takeWhile numClassB
          match lastDigitEnd (r1 ++ r2) with
          | some n => if 2 ≤ n then n else 0
          | none => 0
        else 0
  if alt1 ≠ 0 then alt1
  else
    match cs with
    | c :: _ => if c.isDigit then 1 else 0
    | [] => 0

/-- `number_pattern.findall` and `number_pattern.split` in one scan:
returns `(others, numbers)` with `others.length = numbers.length + 1`.
`acc` is the non-matching run currently being accumulated (reversed);
`fuel` dominates the remaining length. -/
def findNumbersGo (fuel : Nat) (acc : List Char) (cs : List Char) :
    List String × List String :=
  match fuel with
  | 0 => ([String.mk acc.reverse], [])
  | fuel + 1 =>
      match cs with
      | [] => ([String.mk acc.reverse], [])
      | c :: r =>
          let n := numMatchLen (c :: r)
          if n = 0 then findNumbersGo fuel (c :: acc) r
          else
            let res := findNumbersGo fuel [] ((c :: r).drop n)
            (String.mk acc.reverse :: res.1, String.mk ((c :: r).take n) :: res.2)

/-- `(number_pattern.split s, number_pattern.findall s)`. -/
def findNumbers (s : String) : List String × List String :=
  findNumbersGo s.toList.length [] s.toList

/-- A speech symbol from the external `SpeechSymbols` dictionary
(modelled from the spec's locale symbol table: `generics.speechSymbols`
is not in the source tree).  `replacement` is the digit's replacement,
with `""` standing for the falsy values. -/
structure Symbol where
  language : String
  replacement : String

/-- The per-call digit translation table built at the top of `resplit`:
for the ten ASCII digits, a symbol whose language is the number language
or `"Windows"` maps the digit to its replacement (falling back to the
digit itself when the replacement is falsy). -/
def translateDict (symbols : Char → Option Symbol) (numberLanguage : String)
    (c : Char) : Option String :=
  if c.isDigit then
    match symbols c with
    | some sym =>
        if sym.language = numberLanguage || sym.language = "Windows" then
          some (if pyTruthy sym.replacement then sym.replacement else Char.toString c)
        else none
    | none => none
  else none

/-- Python `str.translate`: map each character through the table, keeping
characters without an entry. -/
def pyTranslate (td : Char → Option String) (s : String) : String :=
  String.join (s.toList.map fun c => (td c).getD (Char.toString c))

/-- The body of `resplit`'s per-match processing: given one matched
numeric run, apply the mode (`"value"` keeps the literal, `"number"`
space-separates every character and re-tightens dots), then, when the run
has more than two dot-separated segments or the mode is `"number"`,
process each dot-separated segment — the source's guard `len(n) == 1 or
"number"` is a Python truthiness test on the literal `"number"`, so the
digit substitution applies to every segment — and finally replace dots by
the configured replacement string. -/
def processNumber (td : Char → Option String) (mode : String)
    (numberDotReplacement : String) (number : String) : String :=
  let dotCount := (pySplit number ".").length
  let numberStr :=
    if mode = "value" then number
    else pyReplace (pySpaceJoin number) " . " "."
  if 2 < dotCount || mode = "number" then
    let nodotStr := pySplit numberStr "."
    let temp := String.join (nodotStr.dropLast.map fun n =>
      (if n.length = 1 || pyTruthy "number" then pyTranslate td n else n) ++ ".")
    let n := nodotStr.getLastD ""
    let temp := temp ++ (if n.length = 1 || pyTruthy "number" then pyTranslate td n else n)
    pyReplace temp "." numberDotReplacement
  else numberStr

/-- `SynthDriver.resplit`: split a text fragment on the numeric-run
pattern and wrap each processed run in synthetic `WVLangChangeCommand`
markers (`StartNumber` / `EndNumber`). -/
def resplit (symbols : Char → Option Symbol) (mode : String)
    (numberLanguage : String) (numberDotReplacement : String)
    (s : String) : List Cmd :=
  let td := translateDict symbols numberLanguage
  let (others, numbers) := findNumbers s
  let pairs := List.zip others numbers
  (pairs.flatMap fun p =>
    [Cmd.text p.1, Cmd.langChange true (some "StartNumber"),
     Cmd.text (processNumber td mode numberDotReplacement p.2),
     Cmd.langChange true (some "EndNumber")]) ++
    [Cmd.text (others.getLastD "")]

/-- The second pass of `coercionNumberLangChange`: rewrite every
`WVLangChangeCommand` sentinel — `StartNumber` to the number language and
`EndNumber` to the running language — updating the running language on
every other `WVLangChangeCommand`.  Plain `LangChangeCommand`s fail the
`isinstance(command, WVLangChangeCommand)` test and are not examined. -/
def coercionPass2 (numberLanguage : String) (cur : Option String) :
    List Cmd → List Cmd
  | [] => []
  | c :: r =>
      match c with
      | .langChange true l =>
          if l = some "StartNumber" then
            .langChange true (some numberLanguage) :: coercionPass2 numberLanguage cur r
          else if l = some "EndNumber" then
            .langChange true cur :: coercionPass2 numberLanguage cur r
          else
            .langChange true l :: coercionPass2 numberLanguage l r
      | c => c :: coercionPass2 numberLanguage cur r

/-- The first pass of `coercionNumberLangChange`: apply `resplit` to
every text fragment. -/
def coercionPass1 (symbols : Char → Option Symbol) (mode : String)
    (numberLanguage : String) (numberDotReplacement : String)
    (seq : List Cmd) : List Cmd :=
  seq.flatMap fun c =>
    match c with
    | .text s => resplit symbols mode numberLanguage numberDotReplacement s
    | c => [c]

/-- `SynthDriver.coercionNumberLangChange`: apply `resplit` to every text
fragment, then resolve the sentinels in a second pass starting from the
driver's language (`self.language`). -/
def coercionNumberLangChange (symbols : Char → Option Symbol)
    (driverLanguage : String) (mode : String) (numberLanguage : String)
    (numberDotReplacement : String) (seq : List Cmd) : List Cmd :=
  coercionPass2 numberLanguage (some driverLanguage)
    (coercionPass1 symbols mode numberLanguage numberDotReplacement seq)

/-- The first phase of `patchedSpaceSpeechSequence`: join consecutive
strings, flushing the accumulated string before every non-string command
and once at the end (so empty strings appear where two non-string
commands are adjacent). -/
def spacerJoinGo (joinString : String) : List Cmd → List Cmd
  | [] => [.text joinString]
  | c :: r =>
      match c with
      | .text s => spacerJoinGo (joinString ++ s) r
      | c => .text joinString :: c :: spacerJoinGo "" r

/-- CJK unified ideograph range of `chinese_space_pattern`. -/
def isCJK (c : Char) : Bool :=
  0x4e00 ≤ c.toNat && c.toNat ≤ 0x9fa5

/-- `re.split(chinese_space_pattern, s)`: split on maximal whitespace runs
whose immediate neighbours on both sides are CJK ideographs.  `fuel`
dominates the number of steps (each consumes at least one character). -/
def chineseSplitGo (fuel : Nat) (acc : List Char) (cs : List Char) :
    List String :=
  match fuel with
  | 0 => [String.mk (acc.reverse ++ cs)]
  | fuel + 1 =>
      match cs with
      | [] => [String.mk acc.reverse]
      | c :: r =>
          if isCJK c then
            let ws := r.takeWhile pySpace
            let rest := r.drop ws.length
            if ws ≠ [] && (rest.head?.elim false isCJK) then
              String.mk (acc.reverse ++ [c]) :: chineseSplitGo fuel [] rest
            else chineseSplitGo fuel (c :: acc) r
          else chineseSplitGo fuel (c :: acc) r

/-- `re.split(chinese_space_pattern, s)`. -/
def chineseSplit (s : String) : List String :=
  chineseSplitGo s.toList.length [] s.toList

/-- The second phase of `patchedSpaceSpeechSequence` on one command:
unsplit strings pass through; a split string is interleaved with
`BreakCommand(waitMs)` markers, dropping the trailing one. -/
def spacerSplitCmd (waitMs : Int) (c : Cmd) : List Cmd :=
  match c with
  | .text s =>
      let result := chineseSplit s
      if result.length = 1 then [.text s]
      else (result.flatMap fun i => [Cmd.text i, Cmd.breakCmd waitMs]).dropLast
  | c => [c]

/-- `SynthDriver.patchedSpaceSpeechSequence`: a no-op when the Chinese
space wait factor is zero, otherwise join-then-split with
`Break(factor * 5)` at ideograph boundaries. -/
def patchedSpaceSpeechSequence (chinesespace : Nat) (seq : List Cmd) :
    List Cmd :=
  if chinesespace = 0 then seq
  else (spacerJoinGo "" seq).flatMap (spacerSplitCmd (chinesespace * 5))

/-- The normalization pass of `speak`: apply the (external)
`unicodedata.normalize` to text fragments when the configured form is not
`"OFF"`. -/
def normalizePass (normalization : String) (normalizeFn : String → String)
    (seq : List Cmd) : List Cmd :=
  if normalization ≠ "OFF" then
    seq.map fun c =>
      match c with
      | .text s => .text (normalizeFn s)
      | c => c
  else seq

/-- The driver settings `speak` reads (all with `DetectLanguageTiming =
'after'`, the default, under which `speak` itself runs the pre-passes). -/
structure Config where
  cni : Bool
  nummod : String
  numlan : String
  chinesespace : Nat
  normalization : String
  uwv : Bool
  useUnicodeLanguageDetection : Bool
  numberDotReplacement : String

/-- The pre-pass pipeline of `speak` before the multiplexer loop: comma
stripping, numeric tagging, language detection (the external detector is a
parameter), script spacing, normalization, stabilization. -/
def prepass (cfg : Config) (symbols : Char → Option Symbol) (vm : VM)
    (detect : List Cmd → List Cmd) (normalizeFn : String → String)
    (seq : List Cmd) : List Cmd :=
  let seq := if cfg.cni then
      seq.map fun c =>
        match c with
        | .text s => .text (stripCommas s)
        | c => c
    else seq
  let seq := coercionNumberLangChange symbols vm.defaultLanguage cfg.nummod
    cfg.numlan cfg.numberDotReplacement seq
  let seq := if cfg.uwv && cfg.useUnicodeLanguageDetection then detect seq else seq
  let seq := patchedSpaceSpeechSequence cfg.chinesespace seq
  let seq := normalizePass cfg.normalization normalizeFn seq
  stabilize seq

/-- The locals of `speak` at the top of the multiplexer loop. -/
def initState (vm : VM) : St :=
  { voiceInstance := vm.defaultVoiceInstance
    currentLanguage := vm.defaultLanguage
    chunks := []
    hasText := false
    charMode := false
    textList := []
    tags := []
    tagsChanged := true
    openedTags := []
    item := none }

/-- `SynthDriver.speak` end to end: pre-passes, then the multiplexer
loop with the end-of-stream flush. -/
def speak (cfg : Config) (symbols : Char → Option Symbol) (vm : VM)
    (detect : List Cmd → List Cmd) (normalizeFn : String → String)
    (seq : List Cmd) : List Emit × Option Err :=
  speakRun vm (initState vm) (prepass cfg symbols vm detect normalizeFn seq)

/-- The spoken-text items of a payload (control/markup tokens removed). -/
def textsOfItems (items : List Item) : List String :=
  items.filterMap fun i =>
    match i with
    | .text s => some s
    | .ctrl _ => none

/-- The spoken-text items of one backend call. -/
def textsOfEmit : Emit → List String
  | .speakCall _ items => textsOfItems items
  | _ => []

/-- All text content delivered to voice handles, in order, control
markers removed. -/
def deliveredTexts (es : List Emit) : List String :=
  es.flatMap textsOfEmit

/-- The text fragments of an instruction sequence, in order. -/
def textsOfCmds (seq : List Cmd) : List String :=
  seq.filterMap fun c =>
    match c with
    | .text s => some s
    | _ => none

/-- The pending (not yet delivered) text of the buffers. -/
def pendingTexts (st : St) : List String :=
  textsOfItems st.chunks ++ textsOfItems st.textList

/-- The abstraction of the multiplexer state that determines which text a
fragment contributes: active voice, active language, character mode. -/
structure Abs where
  voice : Voice
  lang : String
  charMode : Bool
  deriving DecidableEq, Repr

/-- Abstraction of a concrete loop state. -/
def absOf (st : St) : Abs :=
  ⟨st.voiceInstance, st.currentLanguage, st.charMode⟩

/-- The language-change transition common to the three engine arms
(`resetCM` is true for the aisound arm, which resets character mode on an
actual voice switch). -/
def absLang (vm : VM) (a : Abs) (resetCM : Bool) (l : Option String) : Abs :=
  if l = some a.lang then a
  else
    match l with
    | none => { a with voice := vm.defaultVoiceInstance, lang := vm.defaultLanguage }
    | some lang =>
        let nv := resolveFor vm lang
        if nv = a.voice then { a with lang := lang }
        else { voice := nv, lang := lang,
               charMode := if resetCM then false else a.charMode }

/-- The abstract transition of one instruction. -/
def stepAbs (vm : VM) (a : Abs) (c : Cmd) : Abs :=
  if a.voice.engine = "VE" then
    match c with
    | .characterMode b => { a with charMode := b }
    | .langChange _ l => absLang vm a false l
    | _ => a
  else if a.voice.engine = "SAPI5" then
    match c with
    | .langChange _ l => absLang vm a false l
    | _ => a
  else if a.voice.engine = "aisound" then
    match c with
    | .characterMode b => { a with charMode := b }
    | .langChange _ l => absLang vm a true l
    | _ => a
  else a

/-- The text a VE text fragment ends up contributing: stripped, dropped
when empty, lower-cased in character mode or when a single character, and
with the escape character removed. -/
def veMangle (charMode : Bool) (s : String) : List String :=
  let s := pyStrip s
  if s = "" then []
  else
    let s := if charMode || s.length = 1 then pyLower s else s
    [pyReplace s "\x1b" ""]

/-- The text one instruction contributes to the delivered output, as a
function of the abstract state: a reference dispatcher with no buffers. -/
def econtrib (vm : VM) (a : Abs) (c : Cmd) : List String :=
  if a.voice.engine = "VE" then
    match c with
    | .text s => veMangle a.charMode s
    | _ => []
  else if a.voice.engine = "SAPI5" then
    match c with
    | .text s => [pyReplace s "<" "&lt;"]
    | .phoneme ipa txt =>
        match vm.convertPhoneme ipa with
        | some _ => []
        | none => if pyTruthy txt then [txt] else []
    | _ => []
  else if a.voice.engine = "aisound" then
    match c with
    | .text s => [if a.charMode then pySpaceJoin s else s]
    | _ => []
  else []

/-- The reference text output of a whole sequence: per-instruction
contributions under the abstract state evolution, with no buffering. -/
def expectedTexts (vm : VM) (a : Abs) : List Cmd → List String
  | [] => []
  | c :: r => econtrib vm a c ++ expectedTexts vm (stepAbs vm a c) r

/-- The loop invariant of `speak`: a non-VE active voice has an empty
chunk buffer and no pending text flag, a non-SAPI5 active voice has an
empty `textList`, and without the `hasText` flag the chunk buffer holds
no spoken text. -/
def WF (st : St) : Prop :=
  (st.voiceInstance.engine ≠ "VE" → st.chunks = [] ∧ st.hasText = false) ∧
  (st.voiceInstance.engine ≠ "SAPI5" → st.textList = []) ∧
  (st.hasText = false → textsOfItems st.chunks = [])

instance : DecidablePred WF := fun st => by
  unfold WF
  infer_instance

/-! ## The stabilizer: permutation and idempotence -/

theorem stabilizeGo_perm (l : List Cmd) :
    ∀ u, List.Perm (stabilizeGo u l) (u ++ l) := by
  induction l with
  | nil => intro u; simp [stabilizeGo]
  | cons c r ih =>
      intro u
      by_cases hL : isLangCmd c = true
      · simp only [stabilizeGo, hL, if_true]
        refine List.Perm.trans (List.Perm.append_left _ (ih [])) ?_
        exact (List.perm_middle).symm
      · rw [Bool.not_eq_true] at hL
        by_cases hT : isTextCmd c = true
        · simp only [stabilizeGo, hL, hT, Bool.false_eq_true, if_false, if_true]
          refine List.Perm.trans (List.Perm.append_left _ (ih [])) ?_
          simp
        · rw [Bool.not_eq_true] at hT
          simp only [stabilizeGo, hL, hT, Bool.false_eq_true, if_false]
          simpa using ih (u ++ [c])

/-- C10: the stabilizer pass outputs a permutation of its input: every
instruction of the input appears exactly once in the output and nothing is
added, so reordering is the only effect of the pass. -/
theorem stabilize_perm (seq : List Cmd) : List.Perm (stabilize seq) seq := by
  simpa using stabilizeGo_perm seq []

/-- An adjacent pair is in stable position if its second element, when a
language change, follows a text fragment or another language change. -/
def okPair (a b : Cmd) : Prop :=
  isLangCmd b = true → (isLangCmd a = true ∨ isTextCmd a = true)

instance : ∀ a b, Decidable (okPair a b) := fun a b => by
  unfold okPair
  infer_instance

/-- Stable shape: no unstable marker sits directly before a language
change. -/
def noHoist (l : List Cmd) : Prop :=
  List.Chain' okPair l

instance : DecidablePred noHoist := fun l => by
  unfold noHoist
  infer_instance

/-- Whether the next text-or-language-change element of the list is a
language change. -/
def firstTriggerLang : List Cmd → Bool
  | [] => false
  | c :: r =>
      if isLangCmd c then true
      else if isTextCmd c then false
      else firstTriggerLang r

/-- No two language-change markers separated by unstable markers only:
after every language change, the next text-or-language-change element is
a text fragment (if any). -/
def sepByText : List Cmd → Bool
  | [] => true
  | c :: r => (!(isLangCmd c) || !(firstTriggerLang r)) && sepByText r

/-- Lists of unstable markers only. -/
def markersOnly (l : List Cmd) : Prop :=
  ∀ c ∈ l, isLangCmd c = false ∧ isTextCmd c = false

theorem markersOnly_noHoist {u : List Cmd} (hu : markersOnly u) : noHoist u := by
  induction u with
  | nil => exact List.chain'_nil
  | cons a r ih =>
      rw [noHoist, List.chain'_cons']
      refine ⟨?_, ih fun c hc => hu c (List.mem_cons_of_mem _ hc)⟩
      intro y hy hlang
      rcases r with _ | ⟨b, r'⟩
      · simp at hy
      · simp only [List.head?_cons, Option.mem_def, Option.some.injEq] at hy
        subst hy
        exact absurd hlang (by simp [(hu b (by simp)).1])

theorem markersOnly_append_single {u : List Cmd} {c : Cmd}
    (hu : markersOnly u) (hL : isLangCmd c = false) (hT : isTextCmd c = false) :
    markersOnly (u ++ [c]) := by
  intro x hx
  rcases List.mem_append.mp hx with h | h
  · exact hu x h
  · simp only [List.mem_singleton] at h
    subst h
    exact ⟨hL, hT⟩

theorem stabilizeGo_headLang (l : List Cmd) :
    ∀ u, markersOnly u →
      ((stabilizeGo u l).head?.elim false isLangCmd) = true →
      firstTriggerLang l = true := by
  induction l with
  | nil =>
      intro u hu h
      exfalso
      rcases u with _ | ⟨a, r⟩
      · simp [stabilizeGo] at h
      · simp only [stabilizeGo, List.head?_cons, Option.elim_some] at h
        simp [(hu a (by simp)).1] at h
  | cons c r ih =>
      intro u hu h
      by_cases hL : isLangCmd c = true
      · simp [firstTriggerLang, hL]
      · rw [Bool.not_eq_true] at hL
        by_cases hT : isTextCmd c = true
        · exfalso
          simp only [stabilizeGo, hL, hT, Bool.false_eq_true, if_false, if_true] at h
          rcases u with _ | ⟨a, u'⟩
          · simp only [List.nil_append, List.cons_append, List.head?_cons,
              Option.elim_some] at h
            simp [hL] at h
          · simp only [List.cons_append, List.head?_cons, Option.elim_some] at h
            simp [(hu a (by simp)).1] at h
        · rw [Bool.not_eq_true] at hT
          simp only [stabilizeGo, hL, hT, Bool.false_eq_true, if_false] at h
          have := ih (u ++ [c]) (markersOnly_append_single hu hL hT) h
          simpa [firstTriggerLang, hL, hT] using this

theorem sepByText_tail {c : Cmd} {r : List Cmd} (h : sepByText (c :: r) = true) :
    sepByText r = true := by
  simp only [sepByText, Bool.and_eq_true] at h
  exact h.2

theorem stabilizeGo_noHoist (l : List Cmd) :
    ∀ u, markersOnly u → sepByText l = true → noHoist (stabilizeGo u l) := by
  induction l with
  | nil =>
      intro u hu _
      simpa [stabilizeGo] using markersOnly_noHoist hu
  | cons c r ih =>
      intro u hu hsep
      by_cases hL : isLangCmd c = true
      · simp only [stabilizeGo, hL, if_true]
        rw [noHoist, List.chain'_append]
        refine ⟨?_, ih [] (by intro x hx; simp at hx) (sepByText_tail hsep), ?_⟩
        · rw [List.chain'_cons']
          refine ⟨?_, markersOnly_noHoist hu⟩
          intro y _ _
          exact Or.inl hL
        · intro x _ y hy hy2
          -- a language change heading the rest of the output means the next
          -- trigger after this language change is another language change,
          -- which sepByText rules out
          have hft : firstTriggerLang r = true := by
            refine stabilizeGo_headLang r [] (by intro z hz; simp at hz) ?_
            rcases hout : stabilizeGo [] r with _ | ⟨z, out'⟩
            · rw [hout] at hy; simp at hy
            · rw [hout] at hy
              simp only [List.head?_cons, Option.mem_def, Option.some.injEq] at hy
              subst hy
              simp [hout, hy2]
          simp only [sepByText, Bool.and_eq_true, Bool.or_eq_true,
            Bool.not_eq_true'] at hsep
          rcases hsep.1 with h1 | h1
          · exact absurd hL (by simp [h1])
          · exact absurd hft (by simp [h1])
      · rw [Bool.not_eq_true] at hL
        by_cases hT : isTextCmd c = true
        · simp only [stabilizeGo, hL, hT, Bool.false_eq_true, if_false, if_true]
          rw [noHoist, List.chain'_append]
          refine ⟨?_, ih [] (by intro x hx; simp at hx) (sepByText_tail hsep), ?_⟩
          · rw [List.chain'_append]
            refine ⟨markersOnly_noHoist hu, List.chain'_singleton _, ?_⟩
            intro x _ y hy hy2
            simp only [List.head?_cons, Option.mem_def, Option.some.injEq] at hy
            subst hy
            exact absurd hy2 (by simp [hL])
          · intro x hx y _ hy2
            have hx' : x = c := by
              rw [List.getLast?_concat] at hx
              simpa using hx.symm
            subst hx'
            exact Or.inr hT
        · rw [Bool.not_eq_true] at hT
          simp only [stabilizeGo, hL, hT, Bool.false_eq_true, if_false]
          exact ih (u ++ [c]) (markersOnly_append_single hu hL hT)
            (sepByText_tail hsep)

theorem stabilizeGo_of_noHoist (l : List Cmd) :
    ∀ u, noHoist l →
      ((l.head?.elim false isLangCmd) = true → u = []) →
      stabilizeGo u l = u ++ l := by
  induction l with
  | nil => intro u _ _; simp [stabilizeGo]
  | cons c r ih =>
      intro u hsh hhd
      by_cases hL : isLangCmd c = true
      · have hu : u = [] := hhd (by simp [hL])
        subst hu
        simp only [stabilizeGo, hL, if_true]
        rw [ih [] (List.chain'_cons'.mp hsh).2 (by intro _; rfl)]
        simp
      · rw [Bool.not_eq_true] at hL
        by_cases hT : isTextCmd c = true
        · simp only [stabilizeGo, hL, hT, Bool.false_eq_true, if_false, if_true]
          rw [ih [] (List.chain'_cons'.mp hsh).2 (by intro _; rfl)]
          simp
        · rw [Bool.not_eq_true] at hT
          simp only [stabilizeGo, hL, hT, Bool.false_eq_true, if_false]
          have hr : (r.head?.elim false isLangCmd) = true → u ++ [c] = [] := by
            intro hhd2
            exfalso
            rcases r with _ | ⟨b, r'⟩
            · simp at hhd2
            · simp only [List.head?_cons, Option.elim_some] at hhd2
              have := (List.chain'_cons'.mp hsh).1 b (by simp) hhd2
              rcases this with h | h
              · exact absurd h (by simp [hL])
              · exact absurd h (by simp [hT])
          rw [ih (u ++ [c]) (List.chain'_cons'.mp hsh).2 hr]
          simp

/-- C8 counterexample: on `[IndexMark, LanguageChange a, IndexMark,
LanguageChange b]` the stabilizer yields `[La, i1, Lb, i2]`, and a second
run hoists `Lb` over `i1`, yielding `[La, Lb, i1, i2]` — the stabilizer is
not idempotent. -/
theorem c8_counterexample :
    stabilize (stabilize [.index 1, .langChange false (some "a"),
        .index 2, .langChange false (some "b")]) ≠
      stabilize [.index 1, .langChange false (some "a"),
        .index 2, .langChange false (some "b")] := by
  decide

/-- C8 (amended): the stabilizer is idempotent on every sequence in which
no language-change marker is followed by another language-change marker
with only unstable markers (and no text fragment) between them; re-running
it on the output of such an input yields that output unchanged.  (In
general a second run hoists a language change over the markers that an
earlier language change flushed in front of it, as the counterexample
shows.) -/
theorem c8_amended (s : List Cmd) (hs : sepByText s = true) :
    stabilize (stabilize s) = stabilize s := by
  have h1 : noHoist (stabilize s) :=
    stabilizeGo_noHoist s [] (by intro x hx; simp at hx) hs
  have h2 := stabilizeGo_of_noHoist (stabilize s) [] h1 (by intro _; rfl)
  simpa [stabilize] using h2

/-- Witness for C8 (amended) at a concrete input that the stabilizer
genuinely reorders. -/
theorem c8_amended_witness :
    sepByText [Cmd.index 1, Cmd.langChange false (some "a"),
        Cmd.text "x", Cmd.index 2] = true ∧
    stabilize (stabilize [Cmd.index 1, Cmd.langChange false (some "a"),
        Cmd.text "x", Cmd.index 2]) =
      stabilize [Cmd.index 1, Cmd.langChange false (some "a"),
        Cmd.text "x", Cmd.index 2] :=
  ⟨by decide, c8_amended _ (by decide)⟩

/-! ## Concrete fixtures for witnesses and counterexamples -/

/-- A chunk-protocol voice. -/
def veVoice : Voice := ⟨0, "VE", "en", 50, 50, 50⟩

/-- A chunk-protocol French voice. -/
def frVoice : Voice := ⟨1, "VE", "fr", 50, 50, 50⟩

/-- A markup-protocol voice. -/
def sapiVoice : Voice := ⟨2, "SAPI5", "en", 50, 50, 50⟩

/-- A plain-call voice. -/
def aiVoice : Voice := ⟨3, "aisound", "zh", 50, 50, 50⟩

/-- A voice manager whose default voice is the VE voice and which resolves
only `"fr"`. -/
def exVM : VM :=
  ⟨veVoice, "en", fun l => if l = "fr" then some frVoice else none, fun _ => none⟩

/-- A voice manager whose default voice is the SAPI5 voice. -/
def exVMSapi : VM :=
  ⟨sapiVoice, "en", fun l => if l = "fr" then some frVoice else none, fun _ => none⟩

/-- A configuration with every optional pre-pass disabled and numeric mode
`value` with the (non-resolving) default number locale. -/
def exCfg : Config := ⟨false, "value", "default", 0, "OFF", false, true, "."⟩

/-! ## C2: the undefined `item` variable in the VE arm -/

/-- C2: the claim says an unsupported instruction is logged and skipped and
never aborts the stream; but the chunk-protocol arm's fallback branch reads
the loop variable `item`, which only the SAPI5/aisound arms assign, so an
unsupported instruction (here a `PhonemeCommand`) under a VE voice raises
an uncaught `NameError` that aborts the utterance before any output. -/
theorem c2_bug :
    speak exCfg (fun _ => none) exVM id id [.phoneme "h@loU" "hello"] =
      ([], some Err.nameError) := by
  decide

/-! ## C4: the always-true digit-substitution guard -/

/-- Symbol table for C4: digits `3` and `4` have `en` replacements. -/
def c4Symbols : Char → Option Symbol := fun c =>
  if c = '3' then some ⟨"en", "three"⟩
  else if c = '4' then some ⟨"en", "four"⟩
  else none

/-- C4: in the per-segment branch (here taken because `"1.2.34"` has three
dot-separated segments), the source's guard `len(n) == 1 or "number"` is
always true, so the multi-character segment `"34"` is digit-substituted
even in `"value"` mode, where the claim (and the spec's stated edge-case
policy) requires it to pass through unmodified. -/
theorem c4_bug :
    resplit c4Symbols "value" "en" "." "1.2.34" =
      [Cmd.text "", Cmd.langChange true (some "StartNumber"),
       Cmd.text "1.2.threefour", Cmd.langChange true (some "EndNumber"),
       Cmd.text ""] ∧
    ("1.2.threefour" : String) ≠ "1.2.34" := by
  constructor
  · decide
  · decide

/-! ## Buffer-content lemmas for the tag-diff emitter -/

theorem textsOfItems_append (a b : List Item) :
    textsOfItems (a ++ b) = textsOfItems a ++ textsOfItems b := by
  simp [textsOfItems]

theorem textsOfItems_nil : textsOfItems [] = [] := rfl

@[simp]
theorem textsOfItems_cons_text (s : String) (r : List Item) :
    textsOfItems (Item.text s :: r) = s :: textsOfItems r := rfl

@[simp]
theorem textsOfItems_cons_ctrl (s : String) (r : List Item) :
    textsOfItems (Item.ctrl s :: r) = textsOfItems r := rfl

theorem textsOfItems_ctrl_map {α : Type} (l : List α) (f : α → String) :
    textsOfItems (l.map fun x => Item.ctrl (f x)) = [] := by
  induction l with
  | nil => rfl
  | cons a r ih => simp [ih]

theorem textsOfItems_opening (tags : List (String × List (String × String))) :
    textsOfItems (tags.flatMap fun p =>
      [Item.ctrl ("<" ++ p.1)] ++
        (p.2.map fun a => Item.ctrl (" " ++ a.1 ++ "=\"" ++ a.2 ++ "\"")) ++
        [Item.ctrl ">"]) = [] := by
  induction tags with
  | nil => rfl
  | cons p r ih =>
      simp only [List.flatMap_cons, textsOfItems_append, ih]
      simp [textsOfItems, textsOfItems_append, textsOfItems_ctrl_map]

theorem outputTags_textList_texts (v : Voice) (st : St) :
    textsOfItems (outputTags v st).textList = textsOfItems st.textList := by
  unfold outputTags
  split
  · rfl
  · have hkey : textsOfItems (st.textList ++
        (st.openedTags.reverse.map fun t => Item.ctrl ("</" ++ t ++ ">")) ++
        (st.tags.flatMap fun p =>
          [Item.ctrl ("<" ++ p.1)] ++
            (p.2.map fun a => Item.ctrl (" " ++ a.1 ++ "=\"" ++ a.2 ++ "\"")) ++
            [Item.ctrl ">"])) = textsOfItems st.textList := by
      rw [textsOfItems_append, textsOfItems_append, textsOfItems_ctrl_map,
        textsOfItems_opening]
      simp
    split <;> exact hkey

theorem outputTags_voiceInstance (v : Voice) (st : St) :
    (outputTags v st).voiceInstance = st.voiceInstance := by
  unfold outputTags
  split
  · rfl
  · split <;> rfl

theorem outputTags_currentLanguage (v : Voice) (st : St) :
    (outputTags v st).currentLanguage = st.currentLanguage := by
  unfold outputTags
  split
  · rfl
  · split <;> rfl

theorem outputTags_chunks (v : Voice) (st : St) :
    (outputTags v st).chunks = st.chunks := by
  unfold outputTags
  split
  · rfl
  · split <;> rfl

theorem outputTags_hasText (v : Voice) (st : St) :
    (outputTags v st).hasText = st.hasText := by
  unfold outputTags
  split
  · rfl
  · split <;> rfl

theorem outputTags_charMode (v : Voice) (st : St) :
    (outputTags v st).charMode = st.charMode := by
  unfold outputTags
  split
  · rfl
  · split <;> rfl

theorem outputTags_item (v : Voice) (st : St) :
    (outputTags v st).item = st.item := by
  unfold outputTags
  split
  · rfl
  · split <;> rfl

theorem outputTags_pendingTexts (v : Voice) (st : St) :
    pendingTexts (outputTags v st) = pendingTexts st := by
  simp [pendingTexts, outputTags_chunks, outputTags_textList_texts]

/-! ## C6, C3, C5: language-change no-ops, Break, voice-switch flushes -/

/-- The effect of one loop iteration on the Python loop variable `item`:
the SAPI5 and aisound arms bind it to the current command, the VE arm and
the no-arm case leave it alone. -/
def bindItem (st : St) (c : Cmd) : St :=
  if st.voiceInstance.engine = "SAPI5" ∨ st.voiceInstance.engine = "aisound" then
    { st with item := some c }
  else st

/-- C6: a `LanguageChange` whose code equals the current active language
is a no-op (no emission, no state change beyond the `item` binding), and
one whose resolved voice handle is the same instance as the active voice
emits nothing and changes nothing except the active language, which is
updated to the new code; in particular two consecutive language changes
resolving to the active voice produce zero backend flushes. -/
theorem c6_noop (vm : VM) (st : St) (wv : Bool) (l : String) :
    step vm st (.langChange wv (some st.currentLanguage)) =
      .ok ([], bindItem st (.langChange wv (some st.currentLanguage))) ∧
    ((st.voiceInstance.engine = "VE" ∨ st.voiceInstance.engine = "SAPI5" ∨
        st.voiceInstance.engine = "aisound") →
      l ≠ st.currentLanguage →
      resolveFor vm l = st.voiceInstance →
      step vm st (.langChange wv (some l)) =
        .ok ([], { bindItem st (.langChange wv (some l)) with
                     currentLanguage := l })) := by
  by_cases h1 : st.voiceInstance.engine = "VE"
  · constructor
    · simp [step, h1, veStep, bindItem]
    · intro _ hNe hRes
      simp [step, h1, veStep, bindItem, hNe, hRes, Option.some.injEq]
  · by_cases h2 : st.voiceInstance.engine = "SAPI5"
    · constructor
      · simp [step, h1, h2, sapiStep, bindItem]
      · intro _ hNe hRes
        simp [step, h1, h2, sapiStep, bindItem, hNe, hRes, Option.some.injEq]
    · by_cases h3 : st.voiceInstance.engine = "aisound"
      · constructor
        · simp [step, h1, h2, h3, aiStep, bindItem]
        · intro _ hNe hRes
          simp [step, h1, h2, h3, aiStep, bindItem, hNe, hRes, Option.some.injEq]
      · constructor
        · simp [step, h1, h2, h3, bindItem]
        · intro hEng _ _
          rcases hEng with h | h | h
          · exact absurd h h1
          · exact absurd h h2
          · exact absurd h h3

/-- Witness for C6 at the example manager: same-language code, and a code
resolving (through the default fallback) to the active voice instance. -/
theorem c6_noop_witness :
    step exVM (initState exVM) (.langChange false (some "en")) =
      .ok ([], bindItem (initState exVM) (.langChange false (some "en"))) ∧
    step exVM (initState exVM) (.langChange false (some "de")) =
      .ok ([], { bindItem (initState exVM) (.langChange false (some "de")) with
                   currentLanguage := "de" }) := by
  refine ⟨(c6_noop exVM (initState exVM) false "en").1, ?_⟩
  exact (c6_noop exVM (initState exVM) false "de").2 (Or.inl rfl)
    (by decide) (by decide)

/-- An aisound-default voice manager. -/
def exVMAi : VM :=
  ⟨aiVoice, "zh", fun l => if l = "fr" then some frVoice else none, fun _ => none⟩

/-- C3 (amended): only the chunk-protocol arm flushes on `Break` — it
speaks the buffered chunks to the active voice and then issues the pause;
the markup arm encodes the pause inline in the buffered markup without any
backend call, and the plain-call arm logs the command as unsupported and
skips it. -/
theorem c3_amended (vm : VM) (st : St) (t : Int) :
    (st.voiceInstance.engine = "VE" →
      step vm st (.breakCmd t) =
        .ok ([Emit.speakCall st.voiceInstance st.chunks,
              Emit.breaks st.voiceInstance t],
          { st with chunks := [], hasText := false })) ∧
    (st.voiceInstance.engine = "SAPI5" →
      step vm st (.breakCmd t) =
        .ok ([], { st with
                   item := some (.breakCmd t)
                   textList := st.textList ++
                     [Item.ctrl ("<silence msec=\"" ++ toString t ++ "\" />")] })) ∧
    (st.voiceInstance.engine = "aisound" →
      step vm st (.breakCmd t) =
        .ok ([], { st with item := some (.breakCmd t) })) := by
  refine ⟨fun h => ?_, fun h => ?_, fun h => ?_⟩
  · simp [step, h, veStep]
  · by_cases h1 : st.voiceInstance.engine = "VE"
    · rw [h1] at h; exact absurd h (by decide)
    · simp [step, h1, h, sapiStep]
  · by_cases h1 : st.voiceInstance.engine = "VE"
    · rw [h1] at h; exact absurd h (by decide)
    · by_cases h2 : st.voiceInstance.engine = "SAPI5"
      · rw [h2] at h; exact absurd h (by decide)
      · simp [step, h1, h2, h, aiStep]

/-- Witness for C3 (amended): one concrete state per engine arm. -/
theorem c3_amended_witness :
    step exVM (initState exVM) (.breakCmd 500) =
      .ok ([Emit.speakCall (initState exVM).voiceInstance (initState exVM).chunks,
            Emit.breaks (initState exVM).voiceInstance 500],
        { initState exVM with chunks := [], hasText := false }) ∧
    step exVMSapi (initState exVMSapi) (.breakCmd 500) =
      .ok ([], { initState exVMSapi with
                 item := some (.breakCmd 500)
                 textList := (initState exVMSapi).textList ++
                   [Item.ctrl ("<silence msec=\"" ++ toString (500 : Int) ++ "\" />")] }) ∧
    step exVMAi (initState exVMAi) (.breakCmd 500) =
      .ok ([], { initState exVMAi with item := some (.breakCmd 500) }) :=
  ⟨(c3_amended exVM (initState exVM) 500).1 rfl,
   (c3_amended exVMSapi (initState exVMSapi) 500).2.1 rfl,
   (c3_amended exVMAi (initState exVMAi) 500).2.2 rfl⟩

/-- A markup-engine state with pending buffered text. -/
def c3State : St := { initState exVMSapi with textList := [Item.text "hello"] }

/-- C3 counterexample: under the markup engine, a `Break` with text
buffered emits no backend call at all — the buffered text is not flushed
before the pause, which is merely appended to the buffer as an inline
silence element. -/
theorem c3_counterexample :
    step exVMSapi c3State (.breakCmd 500) =
      .ok ([], { c3State with
                 item := some (.breakCmd 500)
                 textList := [Item.text "hello",
                   Item.ctrl "<silence msec=\"500\" />"] }) ∧
    textsOfItems c3State.textList ≠ [] := by
  exact ⟨by decide, by decide⟩

/-- C5 (amended): when a `LanguageChange` resolves to a voice handle
different from the active one, every engine arm first speaks its buffer to
the old voice, then adopts the new voice (re-seeding the baseline pitch tag
when the new voice is a markup voice) — but the arms differ in what they
flush.  The markup arm delivers the whole `textList` buffer
unconditionally: pending text, bookmarks and the tag closures/openings the
tag-diff emitter appends, so no buffered spoken text is ever lost (the
`textsOfItems` conjunct).  The chunk-protocol arm delivers its chunk
buffer only when pending text is present (`hasText`).  The plain-call arm,
which never buffers anything itself, speaks the (stale, normally empty)
chunk buffer to the old voice. -/
theorem c5_amended (vm : VM) (st : St) (wv : Bool) (lang : String)
    (hNe : lang ≠ st.currentLanguage)
    (hDiff : resolveFor vm lang ≠ st.voiceInstance) :
    (st.voiceInstance.engine = "VE" → st.hasText = true →
      step vm st (.langChange wv (some lang)) =
        .ok ([Emit.speakCall st.voiceInstance st.chunks],
          (let st' := { st with
              currentLanguage := lang
              chunks := []
              hasText := false
              voiceInstance := resolveFor vm lang }
           if (resolveFor vm lang).engine = "SAPI5" then
             { st' with tags := (dictSet st'.tags "pitch"
               [("absmiddle", toString (resolveFor vm lang).pitch)]) }
           else st'))) ∧
    (st.voiceInstance.engine = "SAPI5" →
      (let stA := outputTags st.voiceInstance
         { st with
             item := some (Cmd.langChange wv (some lang))
             currentLanguage := lang
             tags := []
             tagsChanged := true }
       step vm st (.langChange wv (some lang)) =
         .ok ([Emit.speakCall st.voiceInstance stA.textList],
           (let st' := { stA with
               textList := []
               voiceInstance := resolveFor vm lang }
            if (resolveFor vm lang).engine = "SAPI5" then
              { st' with tags := (dictSet st'.tags "pitch"
                [("absmiddle", toString (resolveFor vm lang).pitch)]) }
            else st')) ∧
       textsOfItems stA.textList = textsOfItems st.textList)) ∧
    (st.voiceInstance.engine = "aisound" →
      step vm st (.langChange wv (some lang)) =
        .ok ([Emit.speakCall st.voiceInstance st.chunks],
          (let st' := { st with
              item := some (Cmd.langChange wv (some lang))
              currentLanguage := lang
              voiceInstance := resolveFor vm lang
              charMode := false }
           if (resolveFor vm lang).engine = "SAPI5" then
             { st' with tags := (dictSet st'.tags "pitch"
               [("absmiddle", toString (resolveFor vm lang).pitch)]) }
           else st'))) := by
  refine ⟨fun hEng hHas => ?_, fun hEng => ?_, fun hEng => ?_⟩
  · simp only [step, hEng, if_true, veStep, hNe, hHas]
    simp only [hNe, hDiff, hHas]
    by_cases hS : (resolveFor vm lang).engine = "SAPI5" <;> simp [hS, hNe, hDiff]
  · have h1 : st.voiceInstance.engine ≠ "VE" := by rw [hEng]; decide
    refine ⟨?_, ?_⟩
    · simp only [step, h1, if_false, hEng, if_true, sapiStep]
      simp only [hNe, hDiff, outputTags_voiceInstance]
      by_cases hS : (resolveFor vm lang).engine = "SAPI5" <;>
        simp [hS, hNe, hDiff, outputTags_voiceInstance]
    · rw [outputTags_textList_texts]
  · have h1 : st.voiceInstance.engine ≠ "VE" := by rw [hEng]; decide
    have h2 : st.voiceInstance.engine ≠ "SAPI5" := by rw [hEng]; decide
    simp only [step, h1, h2, if_false, hEng, if_true, aiStep]
    simp only [hNe, hDiff]
    by_cases hS : (resolveFor vm lang).engine = "SAPI5" <;> simp [hS, hNe, hDiff]

/-- A chunk-protocol state with pending text. -/
def c5WitState : St :=
  { initState exVM with chunks := [Item.text "hi"], hasText := true }

/-- A markup-engine state with pending text and a buffered bookmark. -/
def c5SapiState : St :=
  { initState exVMSapi with
      textList := [Item.text "hello", Item.ctrl "<Bookmark Mark=\"1\" />"] }

/-- Witness for C5 (amended): one concrete voice switch per engine arm —
the VE voice with `"hi"` buffered and pending, the SAPI5 voice with text
and a bookmark buffered, and the aisound voice, each switching to the
French voice. -/
theorem c5_amended_witness :
    (step exVM c5WitState (.langChange false (some "fr")) =
      .ok ([Emit.speakCall c5WitState.voiceInstance c5WitState.chunks],
        (let st' := { c5WitState with
            currentLanguage := "fr"
            chunks := []
            hasText := false
            voiceInstance := resolveFor exVM "fr" }
         if (resolveFor exVM "fr").engine = "SAPI5" then
           { st' with tags := (dictSet st'.tags "pitch"
             [("absmiddle", toString (resolveFor exVM "fr").pitch)]) }
         else st'))) ∧
    (let stA := outputTags c5SapiState.voiceInstance
       { c5SapiState with
           item := some (Cmd.langChange false (some "fr"))
           currentLanguage := "fr"
           tags := []
           tagsChanged := true }
     step exVMSapi c5SapiState (.langChange false (some "fr")) =
       .ok ([Emit.speakCall c5SapiState.voiceInstance stA.textList],
         (let st' := { stA with
             textList := []
             voiceInstance := resolveFor exVMSapi "fr" }
          if (resolveFor exVMSapi "fr").engine = "SAPI5" then
            { st' with tags := (dictSet st'.tags "pitch"
              [("absmiddle", toString (resolveFor exVMSapi "fr").pitch)]) }
          else st')) ∧
     textsOfItems stA.textList = textsOfItems c5SapiState.textList) ∧
    (step exVMAi (initState exVMAi) (.langChange false (some "fr")) =
      .ok ([Emit.speakCall (initState exVMAi).voiceInstance
             (initState exVMAi).chunks],
        (let st' := { initState exVMAi with
            item := some (Cmd.langChange false (some "fr"))
            currentLanguage := "fr"
            voiceInstance := resolveFor exVMAi "fr"
            charMode := false }
         if (resolveFor exVMAi "fr").engine = "SAPI5" then
           { st' with tags := (dictSet st'.tags "pitch"
             [("absmiddle", toString (resolveFor exVMAi "fr").pitch)]) }
         else st'))) :=
  ⟨(c5_amended exVM c5WitState false "fr" (by decide) (by decide)).1 rfl rfl,
   (c5_amended exVMSapi c5SapiState false "fr" (by decide) (by decide)).2.1 rfl,
   (c5_amended exVMAi (initState exVMAi) false "fr" (by decide) (by decide)).2.2 rfl⟩

/-- A chunk-protocol state with a buffered index-mark token and no pending
text. -/
def c5State : St :=
  { initState exVM with chunks := [Item.ctrl "\x1b\\mrk=1\\"] }

/-- C5 counterexample: a voice switch with only a buffered index-mark
token (no pending text) emits nothing and clears the buffer — buffered
content is discarded, not delivered to the old voice. -/
theorem c5_counterexample :
    step exVM c5State (.langChange false (some "fr")) =
      .ok ([], { c5State with
                 voiceInstance := frVoice
                 currentLanguage := "fr"
                 chunks := [] }) ∧
    c5State.chunks ≠ [] := by
  exact ⟨by decide, by decide⟩

/-! ## C7: the restore language of synthetic number markers -/

/-- The language the multiplexer holds after consuming a prefix: every
engine arm of `speak` sets `currentLanguage` from the code of any
language-change marker it meets (back to the default on a bare marker),
regardless of which class carries it. -/
def langInForce (dflt : String) (cur : String) : List Cmd → String
  | [] => cur
  | c :: r =>
      match c with
      | .langChange _ (some l) => langInForce dflt l r
      | .langChange _ none => langInForce dflt dflt r
      | _ => langInForce dflt cur r

/-- The running language of the second coercion pass after a prefix: only
`WVLangChangeCommand`s that are not `StartNumber`/`EndNumber` sentinels
update it. -/
def wvLangAt (cur : Option String) : List Cmd → Option String
  | [] => cur
  | c :: r =>
      match c with
      | .langChange true l =>
          if l = some "StartNumber" then wvLangAt cur r
          else if l = some "EndNumber" then wvLangAt cur r
          else wvLangAt l r
      | _ => wvLangAt cur r

/-- C7 counterexample: with driver language `en` and a plain (host)
`LangChangeCommand("fr")` in front of the number `5`, the `EndNumber`
marker is rewritten to `en`, although the language in force immediately
before the number (per the multiplexer's own update rule) is `fr` — the
second pass only looks at `WVLangChangeCommand`s. -/
theorem c7_counterexample :
    coercionNumberLangChange (fun _ => none) "en" "value" "zh" "."
        [.langChange false (some "fr"), .text "5"] =
      [.langChange false (some "fr"), .text "",
       .langChange true (some "zh"), .text "5",
       .langChange true (some "en"), .text ""] ∧
    langInForce "en" "en" [Cmd.langChange false (some "fr"), Cmd.text ""] = "fr" ∧
    ("en" : String) ≠ "fr" := by
  exact ⟨by decide, by decide, by decide⟩

theorem coercionPass2_get (numlan : String) :
    ∀ (lst : List Cmd) (cur : Option String) (n : Nat),
      (lst.get? n = some (.langChange true (some "EndNumber")) →
        (coercionPass2 numlan cur lst).get? n =
          some (.langChange true (wvLangAt cur (lst.take n)))) ∧
      (lst.get? n = some (.langChange true (some "StartNumber")) →
        (coercionPass2 numlan cur lst).get? n =
          some (.langChange true (some numlan))) := by
  intro lst
  induction lst with
  | nil => intro cur n; constructor <;> intro h <;> simp at h
  | cons c r ih =>
      intro cur n
      cases n with
      | zero =>
          constructor <;> intro h <;>
            simp only [List.get?_cons_zero, Option.some.injEq] at h <;> subst h
          · simp [coercionPass2, wvLangAt]
          · simp [coercionPass2, wvLangAt]
      | succ n =>
          simp only [List.get?_cons_succ, List.take_succ_cons]
          cases c with
          | langChange wv l =>
              cases wv with
              | true =>
                  by_cases hS : l = some "StartNumber"
                  · subst hS
                    simpa [coercionPass2, wvLangAt] using ih cur n
                  · by_cases hE : l = some "EndNumber"
                    · subst hE
                      simpa [coercionPass2, wvLangAt] using ih cur n
                    · simpa [coercionPass2, wvLangAt, hS, hE] using ih l n
              | false => simpa [coercionPass2, wvLangAt] using ih cur n
          | text s => simpa [coercionPass2, wvLangAt] using ih cur n
          | index i => simpa [coercionPass2, wvLangAt] using ih cur n
          | characterMode b => simpa [coercionPass2, wvLangAt] using ih cur n
          | breakCmd t => simpa [coercionPass2, wvLangAt] using ih cur n
          | pitch nv m => simpa [coercionPass2, wvLangAt] using ih cur n
          | rate nv m => simpa [coercionPass2, wvLangAt] using ih cur n
          | volume nv m => simpa [coercionPass2, wvLangAt] using ih cur n
          | phoneme ipa f => simpa [coercionPass2, wvLangAt] using ih cur n
          | split => simpa [coercionPass2, wvLangAt] using ih cur n
          | otherCommand => simpa [coercionPass2, wvLangAt] using ih cur n
          | unknownObject => simpa [coercionPass2, wvLangAt] using ih cur n

/-- C7 (amended): after the second pass, every synthetic `EndNumber`
marker carries the language the second pass was tracking at its position —
starting from the driver's active language and updated at each
`WVLangChangeCommand` that is not a sentinel (plain host
`LangChangeCommand`s do not update it) — and every synthetic `StartNumber`
marker carries the configured number language. -/
theorem c7_amended (symbols : Char → Option Symbol) (driverLanguage mode
    numlan dotRepl : String) (seq : List Cmd) (n : Nat) :
    ((coercionPass1 symbols mode numlan dotRepl seq).get? n =
        some (.langChange true (some "EndNumber")) →
      (coercionNumberLangChange symbols driverLanguage mode numlan dotRepl
          seq).get? n =
        some (.langChange true (wvLangAt (some driverLanguage)
          ((coercionPass1 symbols mode numlan dotRepl seq).take n)))) ∧
    ((coercionPass1 symbols mode numlan dotRepl seq).get? n =
        some (.langChange true (some "StartNumber")) →
      (coercionNumberLangChange symbols driverLanguage mode numlan dotRepl
          seq).get? n = some (.langChange true (some numlan))) :=
  coercionPass2_get numlan (coercionPass1 symbols mode numlan dotRepl seq)
    (some driverLanguage) n

/-- Witness for C7 (amended): a WorldVoice language change to `de` before
the number `7`; the `EndNumber` marker at index 4 restores `de`, the
`StartNumber` marker at index 2 carries the number language `zh`. -/
theorem c7_amended_witness :
    ((coercionPass1 (fun _ => none) "value" "zh" "."
        [.langChange true (some "de"), .text "7"]).get? 4 =
      some (.langChange true (some "EndNumber")) →
      (coercionNumberLangChange (fun _ => none) "en" "value" "zh" "."
          [.langChange true (some "de"), .text "7"]).get? 4 =
        some (.langChange true (wvLangAt (some "en")
          ((coercionPass1 (fun _ => none) "value" "zh" "."
            [.langChange true (some "de"), .text "7"]).take 4)))) ∧
    (coercionPass1 (fun _ => none) "value" "zh" "."
        [.langChange true (some "de"), .text "7"]).get? 4 =
      some (.langChange true (some "EndNumber")) ∧
    wvLangAt (some "en") ((coercionPass1 (fun _ => none) "value" "zh" "."
        [.langChange true (some "de"), .text "7"]).take 4) = some "de" :=
  ⟨(c7_amended (fun _ => none) "en" "value" "zh" "."
      [.langChange true (some "de"), .text "7"] 4).1,
   by decide, by decide⟩

/-! ## C9: the VE prosody curve -/

theorem halfLe_iff (k : Int) (f m : Nat) (hf : 0 < f) (hm : 1 ≤ m) :
    (halfLe k f m = true) ↔
      (m : ℝ) - 1 / 2 ≤ (2:ℝ) ^ ((k : ℝ) / (f : ℝ)) * 100 := by
  have hx0 : (0:ℝ) < (2:ℝ) ^ ((k : ℝ) / (f : ℝ)) :=
    Real.rpow_pos_of_pos (by norm_num) _
  have hfR : ((f : ℝ)) ≠ 0 := Nat.cast_ne_zero.mpr hf.ne'
  have hxf : ((2:ℝ) ^ ((k : ℝ) / (f : ℝ))) ^ f = (2:ℝ) ^ k := by
    rw [← Real.rpow_natCast ((2:ℝ) ^ ((k : ℝ) / (f : ℝ))) f,
      ← Real.rpow_mul (by norm_num : (0:ℝ) ≤ 2), div_mul_cancel₀ _ hfR,
      Real.rpow_intCast]
  have hmR : (1:ℝ) ≤ (m:ℝ) := by exact_mod_cast hm
  have key : ((m : ℝ) - 1 / 2 ≤ (2:ℝ) ^ ((k : ℝ) / (f : ℝ)) * 100) ↔
      (2 * (m:ℝ) - 1) ^ f ≤ (200:ℝ) ^ f * (2:ℝ) ^ k := by
    have step1 : ((m : ℝ) - 1 / 2 ≤ (2:ℝ) ^ ((k : ℝ) / (f : ℝ)) * 100) ↔
        (2 * (m:ℝ) - 1 ≤ 200 * (2:ℝ) ^ ((k : ℝ) / (f : ℝ))) := by
      constructor <;> intro h <;> linarith
    rw [step1, ← pow_le_pow_iff_left₀ (by linarith : (0:ℝ) ≤ 2 * (m:ℝ) - 1)
      (by positivity) hf.ne', mul_pow, hxf]
  rw [key]
  have hA : (((2 * m - 1) ^ f : ℕ) : ℝ) = (2 * (m:ℝ) - 1) ^ f := by
    push_cast [Nat.cast_sub (show 1 ≤ 2 * m by omega)]
    ring
  unfold halfLe
  by_cases hk : 0 ≤ k
  · have hB : ((200 ^ f * 2 ^ k.toNat : ℕ) : ℝ) = (200:ℝ) ^ f * (2:ℝ) ^ k := by
      push_cast
      rw [← zpow_natCast (2:ℝ) k.toNat, Int.toNat_of_nonneg hk]
    simp only [hk, if_true, decide_eq_true_eq]
    rw [← Nat.cast_le (α := ℝ), hA, hB]
  · have hkn : (0:ℤ) ≤ -k := by omega
    have hB : (((2 * m - 1) ^ f * 2 ^ (-k).toNat : ℕ) : ℝ) =
        (2 * (m:ℝ) - 1) ^ f * (2:ℝ) ^ (-k) := by
      push_cast [Nat.cast_sub (show 1 ≤ 2 * m by omega)]
      rw [← zpow_natCast (2:ℝ) (-k).toNat, Int.toNat_of_nonneg hkn]
    simp only [hk, if_false, decide_eq_true_eq]
    rw [← Nat.cast_le (α := ℝ), hB, Nat.cast_pow]
    have h2k : (0:ℝ) < (2:ℝ) ^ k := zpow_pos (by norm_num) k
    constructor
    · intro h
      have := mul_le_mul_of_nonneg_right h h2k.le
      calc (2 * (m:ℝ) - 1) ^ f
          = (2 * (m:ℝ) - 1) ^ f * (2:ℝ) ^ (-k) * (2:ℝ) ^ k := by
            rw [mul_assoc, ← zpow_add₀ (by norm_num : (2:ℝ) ≠ 0)]
            simp
        _ ≤ ((200:ℕ) : ℝ) ^ f * (2:ℝ) ^ k := this
        _ = (200:ℝ) ^ f * (2:ℝ) ^ k := by norm_num
    · intro h
      have h2nk : (0:ℝ) < (2:ℝ) ^ (-k) := zpow_pos (by norm_num) (-k)
      have := mul_le_mul_of_nonneg_right h h2nk.le
      calc (2 * (m:ℝ) - 1) ^ f * (2:ℝ) ^ (-k)
          ≤ (200:ℝ) ^ f * (2:ℝ) ^ k * (2:ℝ) ^ (-k) := this
        _ = ((200:ℕ) : ℝ) ^ f := by
            rw [mul_assoc, ← zpow_add₀ (by norm_num : (2:ℝ) ≠ 0)]
            norm_num

/-- The integer computation `round2exp` agrees with exact rounding of the
real exponential curve on the range `speak` uses. -/
theorem round2exp_eq_round (k : Int) (f : Nat) (hk1 : -50 ≤ k) (hk2 : k ≤ 50)
    (hf : f = 25 ∨ f = 50) :
    round2exp k f = round ((2:ℝ) ^ ((k : ℝ) / (f : ℝ)) * 100) := by
  have hf0 : 0 < f := by rcases hf with h | h <;> simp [h]
  have hf25 : (25:ℝ) ≤ (f:ℝ) := by
    rcases hf with h | h <;> rw [h] <;> norm_num
  have hf0R : (0:ℝ) < (f:ℝ) := by linarith
  have hk1R : (-50:ℝ) ≤ (k:ℝ) := by exact_mod_cast hk1
  have hk2R : (k:ℝ) ≤ 50 := by exact_mod_cast hk2
  have hexp_lb : (-2:ℝ) ≤ (k : ℝ) / (f : ℝ) := by
    rw [le_div_iff₀ hf0R]
    nlinarith
  have hexp_ub : (k : ℝ) / (f : ℝ) ≤ 2 := by
    rw [div_le_iff₀ hf0R]
    nlinarith
  have hq : (2:ℝ) ^ ((-2:ℤ) : ℝ) = 1 / 4 := by
    rw [Real.rpow_intCast]
    norm_num
  have hx_lb : (25:ℝ) ≤ (2:ℝ) ^ ((k : ℝ) / (f : ℝ)) * 100 := by
    have h1 : (2:ℝ) ^ ((-2:ℤ) : ℝ) ≤ (2:ℝ) ^ ((k : ℝ) / (f : ℝ)) :=
      (Real.rpow_le_rpow_left_iff (by norm_num)).mpr (by push_cast; linarith)
    rw [hq] at h1
    linarith
  have hx_ub : (2:ℝ) ^ ((k : ℝ) / (f : ℝ)) * 100 ≤ 400 := by
    have h2q : (2:ℝ) ^ ((2:ℤ) : ℝ) = 4 := by
      rw [Real.rpow_intCast]
      norm_num
    have h1 : (2:ℝ) ^ ((k : ℝ) / (f : ℝ)) ≤ (2:ℝ) ^ ((2:ℤ) : ℝ) :=
      (Real.rpow_le_rpow_left_iff (by norm_num)).mpr (by push_cast; linarith)
    rw [h2q] at h1
    linarith
  have hP1 : halfLe k f 1 = true :=
    (halfLe_iff k f 1 hf0 le_rfl).mpr (by push_cast; linarith)
  have hN1 : 1 ≤ Nat.findGreatest (fun m => halfLe k f m = true) 500 :=
    Nat.le_findGreatest (by norm_num) hP1
  have hPN : halfLe k f (Nat.findGreatest (fun m => halfLe k f m = true) 500) = true :=
    Nat.findGreatest_spec (P := fun m => halfLe k f m = true) (m := 1) (n := 500)
      (by norm_num) hP1
  have hNle : Nat.findGreatest (fun m => halfLe k f m = true) 500 ≤ 500 :=
    Nat.findGreatest_le 500
  have hP500 : ¬ (halfLe k f 500 = true) := by
    intro h
    have := (halfLe_iff k f 500 hf0 (by norm_num)).mp h
    push_cast at this
    linarith
  have hNlt : Nat.findGreatest (fun m => halfLe k f m = true) 500 < 500 := by
    rcases lt_or_eq_of_le hNle with h | h
    · exact h
    · exact absurd (h ▸ hPN) hP500
  have hPN1 : ¬ (halfLe k f (Nat.findGreatest (fun m => halfLe k f m = true) 500 + 1) = true) :=
    Nat.findGreatest_is_greatest (P := fun m => halfLe k f m = true) (n := 500)
      (Nat.lt_succ_self _) (by omega)
  have lb : ((Nat.findGreatest (fun m => halfLe k f m = true) 500 : ℝ)) - 1 / 2 ≤
      (2:ℝ) ^ ((k : ℝ) / (f : ℝ)) * 100 :=
    (halfLe_iff k f _ hf0 hN1).mp hPN
  have ub : (2:ℝ) ^ ((k : ℝ) / (f : ℝ)) * 100 <
      ((Nat.findGreatest (fun m => halfLe k f m = true) 500 : ℝ)) + 1 / 2 := by
    by_contra hc
    push_neg at hc
    refine hPN1 ((halfLe_iff k f
      (Nat.findGreatest (fun m => halfLe k f m = true) 500 + 1) hf0
      (by omega)).mpr ?_)
    push_cast
    linarith
  have hround : round ((2:ℝ) ^ ((k : ℝ) / (f : ℝ)) * 100) =
      ((Nat.findGreatest (fun m => halfLe k f m = true) 500 : ℕ) : ℤ) := by
    rw [round_eq, Int.floor_eq_iff]
    constructor
    · push_cast
      linarith
    · push_cast
      linarith
  rw [round2exp, hround]

/-- C9 counterexample: a `VolumeCommand(0)` under the chunk-protocol
engine embeds the token `vol=0` — the bounded value itself — whereas the
claimed exponential curve `2 ^ ((bounded - 50) / 50) * 100` rounds to `50`
at input `0`; Volume commands do not go through the curve. -/
theorem c9_counterexample :
    step exVM (initState exVM) (.volume 0 1) =
      .ok ([], { initState exVM with
        chunks := [Item.ctrl "\x1b\\vol=0\\"] }) ∧
    round ((2:ℝ) ^ ((((0:ℤ):ℝ) - 50) / 50) * 100) = 50 ∧
    (0 : ℤ) ≠ 50 := by
  refine ⟨by decide, ?_, by decide⟩
  have h1 : (((0:ℤ):ℝ) - 50) / 50 = ((-1 : ℤ) : ℝ) := by
    push_cast
    norm_num
  rw [h1, Real.rpow_intCast]
  have h2 : ((2:ℝ) ^ (-1:ℤ) * 100) = ((50:ℤ):ℝ) := by
    norm_num
  rw [h2, round_intCast]

/-- C9 (amended): for the chunk-protocol (VE) engine, every Pitch and Rate
command maps its incoming value, clamped to 0..100, through the
exponential curve `2 ^ ((bounded - 50) / factor)` — factor 25 for rate
values at least 50 and 50 otherwise, and pitch always factor 50 — scaled
by 100 and rounded to the nearest integer, embedding the result as an
inline escape token; a Volume command embeds its clamped value directly,
without the curve. -/
theorem c9_amended (vm : VM) (st : St) (nv : Int) (mult : ℚ)
    (hEng : st.voiceInstance.engine = "VE") :
    (step vm st (.rate nv mult) =
      .ok ([], { st with chunks := st.chunks ++
        [Item.ctrl ("\x1b\\rate=" ++ toString (round ((2:ℝ) ^
          ((((max 0 (min nv 100) : ℤ) : ℝ) - 50) /
            (if 50 ≤ max 0 (min nv 100) then (25:ℝ) else 50)) * 100)) ++ "\\")] })) ∧
    (step vm st (.pitch nv mult) =
      .ok ([], { st with chunks := st.chunks ++
        [Item.ctrl ("\x1b\\pitch=" ++ toString (round ((2:ℝ) ^
          ((((max 0 (min nv 100) : ℤ) : ℝ) - 50) / 50) * 100)) ++ "\\")] })) ∧
    (step vm st (.volume nv mult) =
      .ok ([], { st with chunks := st.chunks ++
        [Item.ctrl ("\x1b\\vol=" ++ toString (max 0 (min nv 100)) ++ "\\")] })) := by
  have hcast : (((max 0 (min nv 100) - 50 : ℤ)) : ℝ) =
      ((max 0 (min nv 100) : ℤ) : ℝ) - 50 := by
    push_cast
    ring
  have hb1 : -50 ≤ max 0 (min nv 100) - 50 := by omega
  have hb2 : max 0 (min nv 100) - 50 ≤ 50 := by omega
  refine ⟨?_, ?_, ?_⟩
  · by_cases h50 : 50 ≤ max 0 (min nv 100)
    · simp only [step, hEng, if_true, veStep, h50]
      rw [round2exp_eq_round _ 25 hb1 hb2 (Or.inl rfl), hcast]
      norm_num
    · simp only [step, hEng, if_true, if_false, veStep, h50]
      rw [round2exp_eq_round _ 50 hb1 hb2 (Or.inr rfl), hcast]
      norm_num
  · simp only [step, hEng, if_true, veStep]
    rw [round2exp_eq_round _ 50 hb1 hb2 (Or.inr rfl), hcast]
    norm_num
  · simp [step, hEng, veStep]

/-- Witness for C9 (amended) at rate/pitch/volume value 50 (curve value
`2 ^ 0 * 100 = 100`). -/
theorem c9_amended_witness :
    step exVM (initState exVM) (.rate 50 1) =
      .ok ([], { initState exVM with
        chunks := [Item.ctrl "\x1b\\rate=100\\"] }) ∧
    step exVM (initState exVM) (.pitch 50 1) =
      .ok ([], { initState exVM with
        chunks := [Item.ctrl "\x1b\\pitch=100\\"] }) ∧
    step exVM (initState exVM) (.volume 50 1) =
      .ok ([], { initState exVM with
        chunks := [Item.ctrl "\x1b\\vol=50\\"] }) := by
  have h := c9_amended exVM (initState exVM) 50 1 rfl
  have hval : round ((2:ℝ) ^ ((((max 0 (min 50 100) : ℤ) : ℝ) - 50) /
      (if 50 ≤ max 0 (min (50:ℤ) 100) then (25:ℝ) else 50)) * 100) = 100 := by
    norm_num
  have hval2 : round ((2:ℝ) ^ ((((max 0 (min 50 100) : ℤ) : ℝ) - 50) / 50) * 100) = 100 := by
    norm_num
  refine ⟨?_, ?_, h.2.2⟩
  · have h1 := h.1
    rw [hval] at h1
    exact h1
  · have h2 := h.2.1
    rw [hval2] at h2
    exact h2

/-! ## C1: text preservation through the multiplexer -/


theorem veStep_sound (vm : VM) (st : St) (c : Cmd) (es : List Emit) (st' : St)
    (h1 : st.voiceInstance.engine = "VE") (hwf : WF st)
    (hc : ∀ wv, c ≠ Cmd.langChange wv none)
    (h : veStep vm st c = .ok (es, st')) :
    WF st' ∧
    deliveredTexts es ++ pendingTexts st' =
      pendingTexts st ++ econtrib vm (absOf st) c ∧
    absOf st' = stepAbs vm (absOf st) c := by
  obtain ⟨hwf1, hwf2, hwf3⟩ := hwf
  have htl : st.textList = [] := hwf2 (by rw [h1]; decide)
  cases c with
  | text s =>
      by_cases hs : pyStrip s = ""
      · simp only [veStep, hs, if_true] at h
        simp only [Except.ok.injEq, Prod.mk.injEq] at h
        obtain ⟨rfl, rfl⟩ := h
        refine ⟨⟨hwf1, hwf2, hwf3⟩, ?_, ?_⟩
        · simp [deliveredTexts, econtrib, absOf, h1, veMangle, hs]
        · simp [stepAbs, absOf, h1]
      · simp only [veStep, hs, if_false] at h
        simp only [Except.ok.injEq, Prod.mk.injEq] at h
        obtain ⟨rfl, rfl⟩ := h
        refine ⟨⟨fun hne => absurd h1 hne, fun _ => htl, fun hht => by simp at hht⟩,
          ?_, ?_⟩
        · simp [deliveredTexts, econtrib, absOf, h1, veMangle, hs, pendingTexts,
            textsOfItems_append, htl, textsOfItems]
        · simp [stepAbs, absOf, h1]
  | index i =>
      simp only [veStep, Except.ok.injEq, Prod.mk.injEq] at h
      obtain ⟨rfl, rfl⟩ := h
      refine ⟨⟨fun hne => absurd h1 hne, fun _ => htl, fun hht => ?_⟩, ?_, ?_⟩
      · have h0 : textsOfItems st.chunks = [] := hwf3 (by simpa using hht)
        simp only [textsOfItems_append, h0]
        rfl
      · simp [deliveredTexts, econtrib, absOf, h1, pendingTexts,
          textsOfItems_append, htl, textsOfItems]
      · simp [stepAbs, absOf, h1]
  | breakCmd t =>
      simp only [veStep, Except.ok.injEq, Prod.mk.injEq] at h
      obtain ⟨rfl, rfl⟩ := h
      refine ⟨⟨fun _ => ⟨rfl, rfl⟩, fun _ => htl, fun _ => rfl⟩, ?_, ?_⟩
      · simp [deliveredTexts, econtrib, absOf, h1, pendingTexts,
          textsOfItems_append, htl, textsOfItems, textsOfEmit]
      · simp [stepAbs, absOf, h1]
  | rate nv m =>
      simp only [veStep, Except.ok.injEq, Prod.mk.injEq] at h
      obtain ⟨rfl, rfl⟩ := h
      refine ⟨⟨fun hne => absurd h1 hne, fun _ => htl, fun hht => ?_⟩, ?_, ?_⟩
      · have h0 : textsOfItems st.chunks = [] := hwf3 (by simpa using hht)
        simp only [textsOfItems_append, h0]
        rfl
      · simp [deliveredTexts, econtrib, absOf, h1, pendingTexts,
          textsOfItems_append, htl, textsOfItems]
      · simp [stepAbs, absOf, h1]
  | pitch nv m =>
      simp only [veStep, Except.ok.injEq, Prod.mk.injEq] at h
      obtain ⟨rfl, rfl⟩ := h
      refine ⟨⟨fun hne => absurd h1 hne, fun _ => htl, fun hht => ?_⟩, ?_, ?_⟩
      · have h0 : textsOfItems st.chunks = [] := hwf3 (by simpa using hht)
        simp only [textsOfItems_append, h0]
        rfl
      · simp [deliveredTexts, econtrib, absOf, h1, pendingTexts,
          textsOfItems_append, htl, textsOfItems]
      · simp [stepAbs, absOf, h1]
  | volume nv m =>
      simp only [veStep, Except.ok.injEq, Prod.mk.injEq] at h
      obtain ⟨rfl, rfl⟩ := h
      refine ⟨⟨fun hne => absurd h1 hne, fun _ => htl, fun hht => ?_⟩, ?_, ?_⟩
      · have h0 : textsOfItems st.chunks = [] := hwf3 (by simpa using hht)
        simp only [textsOfItems_append, h0]
        rfl
      · simp [deliveredTexts, econtrib, absOf, h1, pendingTexts,
          textsOfItems_append, htl, textsOfItems]
      · simp [stepAbs, absOf, h1]
  | characterMode b =>
      simp only [veStep, Except.ok.injEq, Prod.mk.injEq] at h
      obtain ⟨rfl, rfl⟩ := h
      refine ⟨⟨fun hne => absurd h1 hne, fun _ => htl, fun hht => ?_⟩, ?_, ?_⟩
      · have h0 : textsOfItems st.chunks = [] := hwf3 (by simpa using hht)
        simp only [textsOfItems_append, h0]
        rfl
      · simp [deliveredTexts, econtrib, absOf, h1, pendingTexts,
          textsOfItems_append, htl, textsOfItems]
      · simp [stepAbs, absOf, h1]
  | split =>
      simp only [veStep, Except.ok.injEq, Prod.mk.injEq] at h
      obtain ⟨rfl, rfl⟩ := h
      refine ⟨⟨fun _ => ⟨rfl, rfl⟩, fun _ => htl, fun _ => rfl⟩, ?_, ?_⟩
      · simp [deliveredTexts, econtrib, absOf, h1, pendingTexts,
          textsOfItems_append, htl, textsOfItems, textsOfEmit]
      · simp [stepAbs, absOf, h1]
  | phoneme ipa fb =>
      simp only [veStep] at h
      cases hit : st.item with
      | none => rw [hit] at h; exact absurd h (by simp)
      | some it =>
          rw [hit] at h
          simp only [Except.ok.injEq, Prod.mk.injEq] at h
          obtain ⟨rfl, rfl⟩ := h
          refine ⟨⟨hwf1, hwf2, hwf3⟩, ?_, ?_⟩
          · simp [deliveredTexts, econtrib, absOf, h1]
          · simp [stepAbs, absOf, h1]
  | otherCommand =>
      simp only [veStep] at h
      cases hit : st.item with
      | none => rw [hit] at h; exact absurd h (by simp)
      | some it =>
          rw [hit] at h
          simp only [Except.ok.injEq, Prod.mk.injEq] at h
          obtain ⟨rfl, rfl⟩ := h
          refine ⟨⟨hwf1, hwf2, hwf3⟩, ?_, ?_⟩
          · simp [deliveredTexts, econtrib, absOf, h1]
          · simp [stepAbs, absOf, h1]
  | unknownObject =>
      simp only [veStep] at h
      cases hit : st.item with
      | none => rw [hit] at h; exact absurd h (by simp)
      | some it =>
          rw [hit] at h
          simp only [Except.ok.injEq, Prod.mk.injEq] at h
          obtain ⟨rfl, rfl⟩ := h
          refine ⟨⟨hwf1, hwf2, hwf3⟩, ?_, ?_⟩
          · simp [deliveredTexts, econtrib, absOf, h1]
          · simp [stepAbs, absOf, h1]
  | langChange wv l =>
      cases l with
      | none => exact absurd rfl (hc wv)
      | some lang =>
          by_cases hsame : some lang = some st.currentLanguage
          · simp only [veStep, hsame, if_true] at h
            simp only [Except.ok.injEq, Prod.mk.injEq] at h
            obtain ⟨rfl, rfl⟩ := h
            refine ⟨⟨hwf1, hwf2, hwf3⟩, ?_, ?_⟩
            · simp [deliveredTexts, econtrib, absOf, h1]
            · have : lang = st.currentLanguage := by simpa using hsame
              simp [stepAbs, absOf, h1, absLang, this]
          · simp only [veStep, hsame, if_false] at h
            by_cases heq : resolveFor vm lang = st.voiceInstance
            · simp only [heq, if_true] at h
              simp only [Except.ok.injEq, Prod.mk.injEq] at h
              obtain ⟨rfl, rfl⟩ := h
              refine ⟨⟨hwf1, fun _ => htl, hwf3⟩, ?_, ?_⟩
              · simp [deliveredTexts, econtrib, absOf, h1, pendingTexts]
              · simp [stepAbs, absOf, h1, absLang, hsame, heq]
            · simp only [heq, if_false] at h
              by_cases hS : (resolveFor vm lang).engine = "SAPI5"
              · simp only [hS, if_true] at h
                simp only [Except.ok.injEq, Prod.mk.injEq] at h
                obtain ⟨rfl, rfl⟩ := h
                refine ⟨⟨fun _ => ⟨rfl, rfl⟩, fun _ => htl, fun _ => rfl⟩, ?_, ?_⟩
                · by_cases hht : st.hasText = true
                  · simp [deliveredTexts, econtrib, absOf, h1, pendingTexts,
                      htl, textsOfItems_nil, textsOfEmit, hht]
                  · have h0 : textsOfItems st.chunks = [] :=
                      hwf3 (by simpa using hht)
                    simp [deliveredTexts, econtrib, absOf, h1, pendingTexts,
                      htl, textsOfItems_nil, textsOfEmit, hht, h0]
                · simp [stepAbs, absOf, h1, absLang, hsame, heq]
              · simp only [hS, if_false] at h
                simp only [Except.ok.injEq, Prod.mk.injEq] at h
                obtain ⟨rfl, rfl⟩ := h
                refine ⟨⟨fun _ => ⟨rfl, rfl⟩, fun _ => htl, fun _ => rfl⟩, ?_, ?_⟩
                · by_cases hht : st.hasText = true
                  · simp [deliveredTexts, econtrib, absOf, h1, pendingTexts,
                      htl, textsOfItems_nil, textsOfEmit, hht]
                  · have h0 : textsOfItems st.chunks = [] :=
                      hwf3 (by simpa using hht)
                    simp [deliveredTexts, econtrib, absOf, h1, pendingTexts,
                      htl, textsOfItems_nil, textsOfEmit, hht, h0]
                · simp [stepAbs, absOf, h1, absLang, hsame, heq]

theorem sapiStep_sound (vm : VM) (st : St) (c : Cmd) (es : List Emit) (st' : St)
    (h1 : st.voiceInstance.engine = "SAPI5") (hwf : WF st)
    (hc : ∀ wv, c ≠ Cmd.langChange wv none)
    (h : sapiStep vm st c = .ok (es, st')) :
    WF st' ∧
    deliveredTexts es ++ pendingTexts st' =
      pendingTexts st ++ econtrib vm (absOf st) c ∧
    absOf st' = stepAbs vm (absOf st) c := by
  obtain ⟨hwf1, hwf2, hwf3⟩ := hwf
  have hck : st.chunks = [] := (hwf1 (by rw [h1]; decide)).1
  have hht : st.hasText = false := (hwf1 (by rw [h1]; decide)).2
  have h0 : textsOfItems st.chunks = [] := by rw [hck]; rfl
  cases c with
  | text s =>
      simp only [sapiStep, Except.ok.injEq, Prod.mk.injEq] at h
      obtain ⟨rfl, rfl⟩ := h
      refine ⟨⟨fun _ => ⟨?_, ?_⟩, fun hne => ?_, fun _ => ?_⟩, ?_, ?_⟩
      · simp [outputTags_chunks, hck]
      · simp [outputTags_hasText, hht]
      · exact absurd (by simpa [outputTags_voiceInstance] using h1) hne
      · simp [outputTags_chunks, hck, textsOfItems_nil]
      · simp [deliveredTexts, econtrib, absOf, h1, pendingTexts, h0, hck,
          textsOfItems_append, textsOfItems_nil, outputTags_chunks,
          outputTags_textList_texts]
      · simp [stepAbs, absOf, h1, outputTags_voiceInstance,
          outputTags_currentLanguage, outputTags_charMode]
  | index i =>
      simp only [sapiStep, Except.ok.injEq, Prod.mk.injEq] at h
      obtain ⟨rfl, rfl⟩ := h
      refine ⟨⟨fun _ => ⟨hck, hht⟩, fun hne => absurd h1 hne, fun _ => h0⟩, ?_, ?_⟩
      · simp [deliveredTexts, econtrib, absOf, h1, pendingTexts, h0,
          textsOfItems_append, textsOfItems_nil]
      · simp [stepAbs, absOf, h1]
  | characterMode b =>
      simp only [sapiStep, Except.ok.injEq, Prod.mk.injEq] at h
      obtain ⟨rfl, rfl⟩ := h
      refine ⟨⟨fun _ => ⟨hck, hht⟩, fun hne => absurd h1 hne, fun _ => h0⟩, ?_, ?_⟩
      · simp [deliveredTexts, econtrib, absOf, h1, pendingTexts]
      · simp [stepAbs, absOf, h1]
  | breakCmd t =>
      simp only [sapiStep, Except.ok.injEq, Prod.mk.injEq] at h
      obtain ⟨rfl, rfl⟩ := h
      refine ⟨⟨fun _ => ⟨hck, hht⟩, fun hne => absurd h1 hne, fun _ => h0⟩, ?_, ?_⟩
      · simp [deliveredTexts, econtrib, absOf, h1, pendingTexts, h0,
          textsOfItems_append, textsOfItems_nil]
      · simp [stepAbs, absOf, h1]
  | pitch nv m =>
      simp only [sapiStep, Except.ok.injEq, Prod.mk.injEq] at h
      obtain ⟨rfl, rfl⟩ := h
      refine ⟨⟨fun _ => ⟨hck, hht⟩, fun hne => absurd h1 hne, fun _ => h0⟩, ?_, ?_⟩
      · simp [deliveredTexts, econtrib, absOf, h1, pendingTexts]
      · simp [stepAbs, absOf, h1]
  | volume nv m =>
      by_cases hm : m = 1 <;>
        simp only [sapiStep, hm, if_true, if_false, Except.ok.injEq,
          Prod.mk.injEq] at h <;>
        obtain ⟨rfl, rfl⟩ := h <;>
        refine ⟨⟨fun _ => ⟨hck, hht⟩, fun hne => absurd h1 hne, fun _ => h0⟩, ?_, ?_⟩
      · simp [deliveredTexts, econtrib, absOf, h1, pendingTexts]
      · simp [stepAbs, absOf, h1]
      · simp [deliveredTexts, econtrib, absOf, h1, pendingTexts]
      · simp [stepAbs, absOf, h1]
  | rate nv m =>
      by_cases hm : m = 1 <;>
        simp only [sapiStep, hm, if_true, if_false, Except.ok.injEq,
          Prod.mk.injEq] at h <;>
        obtain ⟨rfl, rfl⟩ := h <;>
        refine ⟨⟨fun _ => ⟨hck, hht⟩, fun hne => absurd h1 hne, fun _ => h0⟩, ?_, ?_⟩
      · simp [deliveredTexts, econtrib, absOf, h1, pendingTexts]
      · simp [stepAbs, absOf, h1]
      · simp [deliveredTexts, econtrib, absOf, h1, pendingTexts]
      · simp [stepAbs, absOf, h1]
  | split =>
      simp only [sapiStep, Except.ok.injEq, Prod.mk.injEq] at h
      obtain ⟨rfl, rfl⟩ := h
      refine ⟨⟨fun _ => ⟨hck, hht⟩, fun hne => absurd h1 hne, fun _ => h0⟩, ?_, ?_⟩
      · simp [deliveredTexts, econtrib, absOf, h1, pendingTexts]
      · simp [stepAbs, absOf, h1]
  | otherCommand =>
      simp only [sapiStep, Except.ok.injEq, Prod.mk.injEq] at h
      obtain ⟨rfl, rfl⟩ := h
      refine ⟨⟨fun _ => ⟨hck, hht⟩, fun hne => absurd h1 hne, fun _ => h0⟩, ?_, ?_⟩
      · simp [deliveredTexts, econtrib, absOf, h1, pendingTexts]
      · simp [stepAbs, absOf, h1]
  | unknownObject =>
      simp only [sapiStep, Except.ok.injEq, Prod.mk.injEq] at h
      obtain ⟨rfl, rfl⟩ := h
      refine ⟨⟨fun _ => ⟨hck, hht⟩, fun hne => absurd h1 hne, fun _ => h0⟩, ?_, ?_⟩
      · simp [deliveredTexts, econtrib, absOf, h1, pendingTexts]
      · simp [stepAbs, absOf, h1]
  | phoneme ipa fb =>
      rcases hcv : vm.convertPhoneme ipa with _ | sym
      · by_cases hfb : pyTruthy fb = true
        · simp only [sapiStep, hcv, hfb, if_true, Except.ok.injEq,
            Prod.mk.injEq] at h
          obtain ⟨rfl, rfl⟩ := h
          refine ⟨⟨fun _ => ⟨hck, hht⟩, fun hne => absurd h1 hne, fun _ => h0⟩,
            ?_, ?_⟩
          · simp [deliveredTexts, econtrib, absOf, h1, pendingTexts, h0, hcv,
              hfb, textsOfItems_append, textsOfItems_nil]
          · simp [stepAbs, absOf, h1]
        · simp only [sapiStep, hcv, hfb, if_false, Except.ok.injEq,
            Prod.mk.injEq] at h
          obtain ⟨rfl, rfl⟩ := h
          refine ⟨⟨fun _ => ⟨hck, hht⟩, fun hne => absurd h1 hne, fun _ => h0⟩,
            ?_, ?_⟩
          · simp [deliveredTexts, econtrib, absOf, h1, pendingTexts, hcv, hfb]
          · simp [stepAbs, absOf, h1]
      · simp only [sapiStep, hcv, Except.ok.injEq, Prod.mk.injEq] at h
        obtain ⟨rfl, rfl⟩ := h
        refine ⟨⟨fun _ => ⟨hck, hht⟩, fun hne => absurd h1 hne, fun _ => h0⟩,
          ?_, ?_⟩
        · simp [deliveredTexts, econtrib, absOf, h1, pendingTexts, h0, hcv,
            textsOfItems_append, textsOfItems_nil]
        · simp [stepAbs, absOf, h1]
  | langChange wv l =>
      cases l with
      | none => exact absurd rfl (hc wv)
      | some lang =>
          by_cases hsame : some lang = some st.currentLanguage
          · simp only [sapiStep, hsame, if_true, Except.ok.injEq,
              Prod.mk.injEq] at h
            obtain ⟨rfl, rfl⟩ := h
            refine ⟨⟨fun _ => ⟨hck, hht⟩, fun hne => absurd h1 hne, fun _ => h0⟩,
              ?_, ?_⟩
            · simp [deliveredTexts, econtrib, absOf, h1, pendingTexts]
            · have : lang = st.currentLanguage := by simpa using hsame
              simp [stepAbs, absOf, h1, absLang, this]
          · simp only [sapiStep, hsame, if_false] at h
            by_cases heq : resolveFor vm lang = st.voiceInstance
            · simp only [heq, if_true, Except.ok.injEq, Prod.mk.injEq] at h
              obtain ⟨rfl, rfl⟩ := h
              refine ⟨⟨fun _ => ⟨hck, hht⟩, fun hne => absurd h1 hne, fun _ => h0⟩,
                ?_, ?_⟩
              · simp [deliveredTexts, econtrib, absOf, h1, pendingTexts]
              · simp [stepAbs, absOf, h1, absLang, hsame, heq]
            · simp only [heq, if_false] at h
              by_cases hS : (resolveFor vm lang).engine = "SAPI5" <;>
                simp only [hS, if_true, if_false, Except.ok.injEq,
                  Prod.mk.injEq] at h <;>
                obtain ⟨rfl, rfl⟩ := h
              · refine ⟨⟨fun _ => ⟨?_, ?_⟩, fun _ => rfl, fun _ => ?_⟩, ?_, ?_⟩
                · simp [outputTags_chunks, hck]
                · simp [outputTags_hasText, hht]
                · simp [outputTags_chunks, hck, textsOfItems_nil]
                · simp [deliveredTexts, econtrib, absOf, h1, pendingTexts, h0,
                    hck, textsOfEmit, textsOfItems_append, textsOfItems_nil,
                    outputTags_chunks, outputTags_textList_texts]
                · simp [stepAbs, absOf, h1, absLang, hsame, heq,
                    outputTags_voiceInstance, outputTags_currentLanguage,
                    outputTags_charMode]
              · refine ⟨⟨fun _ => ⟨?_, ?_⟩, fun _ => rfl, fun _ => ?_⟩, ?_, ?_⟩
                · simp [outputTags_chunks, hck]
                · simp [outputTags_hasText, hht]
                · simp [outputTags_chunks, hck, textsOfItems_nil]
                · simp [deliveredTexts, econtrib, absOf, h1, pendingTexts, h0,
                    hck, textsOfEmit, textsOfItems_append, textsOfItems_nil,
                    outputTags_chunks, outputTags_textList_texts]
                · simp [stepAbs, absOf, h1, absLang, hsame, heq,
                    outputTags_voiceInstance, outputTags_currentLanguage,
                    outputTags_charMode]

theorem aiStep_sound (vm : VM) (st : St) (c : Cmd) (es : List Emit) (st' : St)
    (h1 : st.voiceInstance.engine = "aisound") (hwf : WF st)
    (hc : ∀ wv, c ≠ Cmd.langChange wv none)
    (h : aiStep vm st c = .ok (es, st')) :
    WF st' ∧
    deliveredTexts es ++ pendingTexts st' =
      pendingTexts st ++ econtrib vm (absOf st) c ∧
    absOf st' = stepAbs vm (absOf st) c := by
  obtain ⟨hwf1, hwf2, hwf3⟩ := hwf
  have hck : st.chunks = [] := (hwf1 (by rw [h1]; decide)).1
  have hht : st.hasText = false := (hwf1 (by rw [h1]; decide)).2
  have htl : st.textList = [] := hwf2 (by rw [h1]; decide)
  have h0 : textsOfItems st.chunks = [] := by rw [hck]; rfl
  cases c with
  | text s =>
      simp only [aiStep, Except.ok.injEq, Prod.mk.injEq] at h
      obtain ⟨rfl, rfl⟩ := h
      refine ⟨⟨fun _ => ⟨hck, hht⟩, fun _ => htl, fun _ => h0⟩, ?_, ?_⟩
      · simp [deliveredTexts, econtrib, absOf, h1, pendingTexts, hck, htl,
          textsOfEmit, textsOfItems_nil]
      · simp [stepAbs, absOf, h1]
  | index i =>
      simp only [aiStep, Except.ok.injEq, Prod.mk.injEq] at h
      obtain ⟨rfl, rfl⟩ := h
      refine ⟨⟨fun _ => ⟨hck, hht⟩, fun _ => htl, fun _ => h0⟩, ?_, ?_⟩
      · simp [deliveredTexts, econtrib, absOf, h1, pendingTexts, textsOfEmit]
      · simp [stepAbs, absOf, h1]
  | characterMode b =>
      simp only [aiStep, Except.ok.injEq, Prod.mk.injEq] at h
      obtain ⟨rfl, rfl⟩ := h
      refine ⟨⟨fun _ => ⟨hck, hht⟩, fun _ => htl, fun _ => h0⟩, ?_, ?_⟩
      · simp [deliveredTexts, econtrib, absOf, h1, pendingTexts]
      · simp [stepAbs, absOf, h1]
  | breakCmd t =>
      simp only [aiStep, Except.ok.injEq, Prod.mk.injEq] at h
      obtain ⟨rfl, rfl⟩ := h
      refine ⟨⟨fun _ => ⟨hck, hht⟩, fun _ => htl, fun _ => h0⟩, ?_, ?_⟩
      · simp [deliveredTexts, econtrib, absOf, h1, pendingTexts]
      · simp [stepAbs, absOf, h1]
  | pitch nv m =>
      simp only [aiStep, Except.ok.injEq, Prod.mk.injEq] at h
      obtain ⟨rfl, rfl⟩ := h
      refine ⟨⟨fun _ => ⟨hck, hht⟩, fun _ => htl, fun _ => h0⟩, ?_, ?_⟩
      · simp [deliveredTexts, econtrib, absOf, h1, pendingTexts]
      · simp [stepAbs, absOf, h1]
  | rate nv m =>
      simp only [aiStep, Except.ok.injEq, Prod.mk.injEq] at h
      obtain ⟨rfl, rfl⟩ := h
      refine ⟨⟨fun _ => ⟨hck, hht⟩, fun _ => htl, fun _ => h0⟩, ?_, ?_⟩
      · simp [deliveredTexts, econtrib, absOf, h1, pendingTexts]
      · simp [stepAbs, absOf, h1]
  | volume nv m =>
      simp only [aiStep, Except.ok.injEq, Prod.mk.injEq] at h
      obtain ⟨rfl, rfl⟩ := h
      refine ⟨⟨fun _ => ⟨hck, hht⟩, fun _ => htl, fun _ => h0⟩, ?_, ?_⟩
      · simp [deliveredTexts, econtrib, absOf, h1, pendingTexts]
      · simp [stepAbs, absOf, h1]
  | split =>
      simp only [aiStep, Except.ok.injEq, Prod.mk.injEq] at h
      obtain ⟨rfl, rfl⟩ := h
      refine ⟨⟨fun _ => ⟨hck, hht⟩, fun _ => htl, fun _ => h0⟩, ?_, ?_⟩
      · simp [deliveredTexts, econtrib, absOf, h1, pendingTexts]
      · simp [stepAbs, absOf, h1]
  | phoneme ipa fb =>
      simp only [aiStep, Except.ok.injEq, Prod.mk.injEq] at h
      obtain ⟨rfl, rfl⟩ := h
      refine ⟨⟨fun _ => ⟨hck, hht⟩, fun _ => htl, fun _ => h0⟩, ?_, ?_⟩
      · simp [deliveredTexts, econtrib, absOf, h1, pendingTexts]
      · simp [stepAbs, absOf, h1]
  | otherCommand =>
      simp only [aiStep, Except.ok.injEq, Prod.mk.injEq] at h
      obtain ⟨rfl, rfl⟩ := h
      refine ⟨⟨fun _ => ⟨hck, hht⟩, fun _ => htl, fun _ => h0⟩, ?_, ?_⟩
      · simp [deliveredTexts, econtrib, absOf, h1, pendingTexts]
      · simp [stepAbs, absOf, h1]
  | unknownObject =>
      simp only [aiStep, Except.ok.injEq, Prod.mk.injEq] at h
      obtain ⟨rfl, rfl⟩ := h
      refine ⟨⟨fun _ => ⟨hck, hht⟩, fun _ => htl, fun _ => h0⟩, ?_, ?_⟩
      · simp [deliveredTexts, econtrib, absOf, h1, pendingTexts]
      · simp [stepAbs, absOf, h1]
  | langChange wv l =>
      cases l with
      | none => exact absurd rfl (hc wv)
      | some lang =>
          by_cases hsame : some lang = some st.currentLanguage
          · simp only [aiStep, hsame, if_true, Except.ok.injEq,
              Prod.mk.injEq] at h
            obtain ⟨rfl, rfl⟩ := h
            refine ⟨⟨fun _ => ⟨hck, hht⟩, fun _ => htl, fun _ => h0⟩, ?_, ?_⟩
            · simp [deliveredTexts, econtrib, absOf, h1, pendingTexts]
            · have : lang = st.currentLanguage := by simpa using hsame
              simp [stepAbs, absOf, h1, absLang, this]
          · simp only [aiStep, hsame, if_false] at h
            by_cases heq : resolveFor vm lang = st.voiceInstance
            · simp only [heq, if_true, Except.ok.injEq, Prod.mk.injEq] at h
              obtain ⟨rfl, rfl⟩ := h
              refine ⟨⟨fun _ => ⟨hck, hht⟩, fun _ => htl, fun _ => h0⟩, ?_, ?_⟩
              · simp [deliveredTexts, econtrib, absOf, h1, pendingTexts]
              · simp [stepAbs, absOf, h1, absLang, hsame, heq]
            · simp only [heq, if_false] at h
              by_cases hS : (resolveFor vm lang).engine = "SAPI5" <;>
                simp only [hS, if_true, if_false, Except.ok.injEq,
                  Prod.mk.injEq] at h <;>
                obtain ⟨rfl, rfl⟩ := h
              · refine ⟨⟨fun _ => ⟨hck, hht⟩, fun _ => htl, fun _ => h0⟩, ?_, ?_⟩
                · simp [deliveredTexts, econtrib, absOf, h1, pendingTexts, h0,
                    htl, textsOfEmit, textsOfItems_nil]
                · simp [stepAbs, absOf, h1, absLang, hsame, heq]
              · refine ⟨⟨fun _ => ⟨hck, hht⟩, fun _ => htl, fun _ => h0⟩, ?_, ?_⟩
                · simp [deliveredTexts, econtrib, absOf, h1, pendingTexts, h0,
                    htl, textsOfEmit, textsOfItems_nil]
                · simp [stepAbs, absOf, h1, absLang, hsame, heq]

theorem deliveredTexts_append (a b : List Emit) :
    deliveredTexts (a ++ b) = deliveredTexts a ++ deliveredTexts b := by
  simp [deliveredTexts]

theorem step_sound (vm : VM) (st : St) (c : Cmd) (es : List Emit) (st' : St)
    (hwf : WF st) (hc : ∀ wv, c ≠ Cmd.langChange wv none)
    (h : step vm st c = .ok (es, st')) :
    WF st' ∧
    deliveredTexts es ++ pendingTexts st' =
      pendingTexts st ++ econtrib vm (absOf st) c ∧
    absOf st' = stepAbs vm (absOf st) c := by
  by_cases h1 : st.voiceInstance.engine = "VE"
  · exact veStep_sound vm st c es st' h1 hwf hc (by simpa [step, h1] using h)
  · by_cases h2 : st.voiceInstance.engine = "SAPI5"
    · exact sapiStep_sound vm st c es st' h2 hwf hc
        (by simpa [step, h1, h2] using h)
    · by_cases h3 : st.voiceInstance.engine = "aisound"
      · exact aiStep_sound vm st c es st' h3 hwf hc
          (by simpa [step, h1, h2, h3] using h)
      · simp only [step, h1, h2, h3, if_false, Except.ok.injEq,
          Prod.mk.injEq] at h
        obtain ⟨rfl, rfl⟩ := h
        exact ⟨hwf, by simp [deliveredTexts, econtrib, absOf, h1, h2, h3],
          by simp [stepAbs, absOf, h1, h2, h3]⟩

theorem finalFlush_texts (st : St) (hwf : WF st) :
    deliveredTexts (finalFlush st) = pendingTexts st := by
  obtain ⟨hwf1, hwf2, hwf3⟩ := hwf
  by_cases h1 : st.voiceInstance.engine = "VE"
  · have htl : st.textList = [] := hwf2 (by rw [h1]; decide)
    by_cases hck : st.chunks = []
    · simp [finalFlush, h1, hck, htl, deliveredTexts, pendingTexts,
        textsOfItems_nil]
    · simp [finalFlush, h1, hck, htl, deliveredTexts, pendingTexts,
        textsOfEmit, textsOfItems_nil]
  · by_cases h2 : st.voiceInstance.engine = "SAPI5"
    · have hck : st.chunks = [] := (hwf1 (by rw [h2]; decide)).1
      simp [finalFlush, h1, h2, deliveredTexts, textsOfEmit, pendingTexts,
        hck, outputTags_textList_texts, textsOfItems_nil]
    · by_cases h3 : st.voiceInstance.engine = "aisound"
      · have htl : st.textList = [] := hwf2 h2
        simp [finalFlush, h1, h2, h3, deliveredTexts, textsOfEmit,
          pendingTexts, htl, textsOfItems_nil]
      · have htl : st.textList = [] := hwf2 h2
        have hck : st.chunks = [] := (hwf1 h1).1
        simp [finalFlush, h1, h2, h3, deliveredTexts, pendingTexts, htl, hck,
          textsOfItems_nil]

theorem speakRun_sound (vm : VM) (cmds : List Cmd) :
    ∀ st : St, WF st →
      (∀ wv, Cmd.langChange wv none ∉ cmds) →
      (speakRun vm st cmds).2 = none →
      deliveredTexts (speakRun vm st cmds).1 =
        pendingTexts st ++ expectedTexts vm (absOf st) cmds := by
  induction cmds with
  | nil =>
      intro st hwf _ _
      simp [speakRun, expectedTexts, finalFlush_texts st hwf]
  | cons c r ih =>
      intro st hwf hnone herr
      rcases hstep : step vm st c with e | p
      · simp [speakRun, hstep] at herr
      · obtain ⟨es, st'⟩ := p
        obtain ⟨hwf', htexts, habs⟩ := step_sound vm st c es st' hwf
          (fun wv hceq => hnone wv (hceq ▸ List.mem_cons_self _ _)) hstep
        have hnone' : ∀ wv, Cmd.langChange wv none ∉ r := fun wv hm =>
          hnone wv (List.mem_cons_of_mem _ hm)
        have herr' : (speakRun vm st' r).2 = none := by
          simpa [speakRun, hstep] using herr
        have ihr := ih st' hwf' hnone' herr'
        simp only [speakRun, hstep, deliveredTexts_append, ihr]
        rw [← List.append_assoc, htexts, habs, List.append_assoc]
        rfl

theorem WF_initState (vm : VM) : WF (initState vm) :=
  ⟨fun _ => ⟨rfl, rfl⟩, fun _ => rfl, fun _ => rfl⟩

/-- C1 (amended): whenever a `speak` call completes without raising (the
undefined-`item` `NameError` of C2) and the pre-processed stream contains
no bare `LanguageChange(None)` marker, the text content delivered to voice
handles, with control/markup tokens removed, is exactly the sequence of
per-fragment contributions of the pre-processed stream (comma-strip,
numeric tagger, detector, script spacer and normalization applied exactly
once, then stabilized), in original relative order, where each fragment is
further mangled by the engine arm active at its position: the
chunk-protocol arm strips surrounding whitespace, drops fragments that
become empty, lower-cases in character mode or when a single character
remains, and removes the escape character; the markup arm replaces `<` by
`&lt;` (and a failed phoneme conversion contributes its fallback text);
the plain-call arm space-separates characters in character mode; and a
voice with an unknown engine contributes nothing.  (A bare
`LanguageChange(None)` must be excluded: reverting to a default voice of a
different engine switches arms without flushing, stranding the old arm's
buffer, as the counterexample shows.) -/
theorem c1_amended (cfg : Config) (symbols : Char → Option Symbol) (vm : VM)
    (detect : List Cmd → List Cmd) (normalizeFn : String → String)
    (seq : List Cmd)
    (hnone : ∀ wv, Cmd.langChange wv none ∉
      prepass cfg symbols vm detect normalizeFn seq)
    (herr : (speak cfg symbols vm detect normalizeFn seq).2 = none) :
    deliveredTexts (speak cfg symbols vm detect normalizeFn seq).1 =
      expectedTexts vm (absOf (initState vm))
        (prepass cfg symbols vm detect normalizeFn seq) := by
  have h := speakRun_sound vm (prepass cfg symbols vm detect normalizeFn seq)
    (initState vm) (WF_initState vm) hnone herr
  simpa [speak, pendingTexts, initState, textsOfItems_nil] using h

/-- Witness for C1 (amended): the spec's own `Room 101` scenario. -/
theorem c1_amended_witness :
    deliveredTexts (speak exCfg (fun _ => none) exVM id id
        [.text "Room ", .text "101", .text " is ready"]).1 =
      expectedTexts exVM (absOf (initState exVM))
        (prepass exCfg (fun _ => none) exVM id id
          [.text "Room ", .text "101", .text " is ready"]) :=
  c1_amended exCfg (fun _ => none) exVM id id
    [.text "Room ", .text "101", .text " is ready"] (by decide) (by decide)

/-- C1 counterexample: the chunk-protocol arm strips and lower-cases, so
the delivered text for input `" A "` is `"a"`, not the transformed input
text `" A "`; and a bare `LanguageChange(None)` reverting from a VE voice
to a markup default voice strands the buffered `"bonjour"`, which is never
delivered at all. -/
theorem c1_counterexample :
    deliveredTexts (speak exCfg (fun _ => none) exVM id id [.text " A "]).1 =
      ["a"] ∧
    textsOfCmds (prepass exCfg (fun _ => none) exVM id id [.text " A "]) =
      [" A "] ∧
    ("a" : String) ≠ " A " ∧
    deliveredTexts (speak exCfg (fun _ => none) exVMSapi id id
      [.langChange false (some "fr"), .text "bonjour",
       .langChange false none, .text "rest"]).1 = ["rest"] := by
  exact ⟨by decide, by decide, by decide, by decide⟩

theorem stepAbs_lang (vm : VM) (a : Abs) (c : Cmd)
    (hEng : a.voice.engine = "VE" ∨ a.voice.engine = "SAPI5" ∨
      a.voice.engine = "aisound") :
    (stepAbs vm a c).lang = langInForce vm.defaultLanguage a.lang [c] := by
  have habs : ∀ (r : Bool) (l : Option String), (absLang vm a r l).lang =
      (match l with
       | some lang => lang
       | none => vm.defaultLanguage) := by
    intro r l
    cases l with
    | none => simp [absLang]
    | some lang =>
        by_cases hsame : some lang = some a.lang
        · have heq : lang = a.lang := by simpa using hsame
          simp [absLang, hsame, heq]
        · by_cases heq : resolveFor vm lang = a.voice <;>
            simp [absLang, hsame, heq]
  rcases hEng with h1 | h1 | h1 <;> cases c <;>
    first
      | (simp [stepAbs, h1, langInForce]; done)
      | (rename_i wv l
         cases l <;> simp [stepAbs, h1, habs, langInForce])

/-- The multiplexer's running language follows `langInForce`: any arm of
the `speak` loop updates `currentLanguage` per the code of every
language-change marker it meets (whether host or WorldVoice class),
reverting to the default language on a bare marker. -/
theorem step_currentLanguage (vm : VM) (st : St) (c : Cmd) (es : List Emit)
    (st' : St)
    (hEng : st.voiceInstance.engine = "VE" ∨ st.voiceInstance.engine = "SAPI5" ∨
      st.voiceInstance.engine = "aisound")
    (hwf : WF st) (h : step vm st c = .ok (es, st')) :
    st'.currentLanguage = langInForce vm.defaultLanguage st.currentLanguage [c] := by
  by_cases hn : ∃ wv, c = Cmd.langChange wv none
  · obtain ⟨wv, rfl⟩ := hn
    rcases hEng with h1 | h1 | h1
    · have h' : veStep vm st (.langChange wv none) = .ok (es, st') := by
        simpa [step, h1] using h
      simp only [veStep, Option.some.injEq, reduceCtorEq, if_false,
        Except.ok.injEq, Prod.mk.injEq] at h'
      obtain ⟨rfl, rfl⟩ := h'
      simp [langInForce]
    · have h' : sapiStep vm st (.langChange wv none) = .ok (es, st') := by
        have hne : st.voiceInstance.engine ≠ "VE" := by rw [h1]; decide
        simpa [step, h1, hne] using h
      simp only [sapiStep, Option.some.injEq, reduceCtorEq, if_false,
        Except.ok.injEq, Prod.mk.injEq] at h'
      obtain ⟨rfl, rfl⟩ := h'
      simp [langInForce]
    · have h' : aiStep vm st (.langChange wv none) = .ok (es, st') := by
        have hne : st.voiceInstance.engine ≠ "VE" := by rw [h1]; decide
        have hne2 : st.voiceInstance.engine ≠ "SAPI5" := by rw [h1]; decide
        simpa [step, h1, hne, hne2] using h
      simp only [aiStep, Option.some.injEq, reduceCtorEq, if_false,
        Except.ok.injEq, Prod.mk.injEq] at h'
      obtain ⟨rfl, rfl⟩ := h'
      simp [langInForce]
  · have hc : ∀ wv, c ≠ Cmd.langChange wv none := fun wv heq => hn ⟨wv, heq⟩
    obtain ⟨_, _, habs⟩ := step_sound vm st c es st' hwf hc h
    have h2 := congrArg Abs.lang habs
    have h3 := stepAbs_lang vm (absOf st) c (by simpa [absOf] using hEng)
    simp only [absOf] at h2 h3
    exact h2.trans h3

end WorldVoice
